import Mathlib

/-!
# Branch predictor (`src/src/predictor.c`): shallow embedding and verified properties

The C translation unit keeps the whole predictor in global variables.  Here the
globals are the fields of `State` and every C function is a Lean function on
`State`.

Conventions of the embedding.

* `uint32_t` and `uint8_t` values are natural numbers; every operation that can
  leave the machine range is followed by an explicit reduction (`u32`, `u8`).
* `int` values are integers; the additions that can leave the 32-bit range
  (the accumulation of `y` in `pred_custom`) are followed by `i32`, the
  two's-complement reduction.
* A heap table (`gpht`, `lhr`, `lpht`, `cpht`) is the list of its allocated cells;
  a null pointer is the empty list.  A read or write outside the allocated cells
  has no defined meaning in C, so every function that indexes a table returns
  an `Option` and yields `none` for such an access.
* `1 << bits` on `int` is meaningful for `bits` in `0..31` only (at `31` every
  two's-complement target produces `0x80000000`); `one_shl` is `none` above that.
* `malloc` is assumed to succeed.
-/

namespace BranchPredictor

/-! ## Machine arithmetic -/

/-- Reduction of a natural number to `uint32_t`. -/
def u32 (n : Nat) : Nat := n % 2 ^ 32

/-- Reduction of a natural number to `uint8_t`. -/
def u8 (n : Nat) : Nat := n % 2 ^ 8

/-- Two's-complement reduction of an integer to a 32-bit `int`. -/
def i32 (z : Int) : Int := (z + 2 ^ 31) % 2 ^ 32 - 2 ^ 31

/-- The C expression `1 << bits` for an `int` operand `bits`, converted to `uint32_t`. -/
def one_shl (bits : Nat) : Option Nat :=
  if bits < 32 then some (u32 (1 <<< bits)) else none

/-! ## Constants -/

/-- Modelled from the spec: `predictor.h` is not among the sources; it declares the
outcome encoding `NOTTAKEN`/`TAKEN`, the counter states `SN`, `WN`, `WT`, `ST` and
the predictor types in the order of `bpName`.  Not-Taken outcome. -/
def NOTTAKEN : Nat := 0

/-- Modelled from the spec: `predictor.h`, Taken outcome. -/
def TAKEN : Nat := 1

/-- Modelled from the spec: `predictor.h`, Strongly-Not-Taken counter value. -/
def SN : Nat := 0

/-- Modelled from the spec: `predictor.h`, Weakly-Not-Taken counter value
(`predictor.c` line 163: "initialized to 01 (WN)"). -/
def WN : Nat := 1

/-- Modelled from the spec: `predictor.h`, Weakly-Taken counter value. -/
def WT : Nat := 2

/-- Modelled from the spec: `predictor.h`, Strongly-Taken counter value. -/
def ST : Nat := 3

/-- Modelled from the spec: `predictor.h`, predictor type "Static" (`bpName[0]`). -/
def STATIC : Int := 0

/-- Modelled from the spec: `predictor.h`, predictor type "Gshare" (`bpName[1]`). -/
def GSHARE : Int := 1

/-- Modelled from the spec: `predictor.h`, predictor type "Tournament" (`bpName[2]`). -/
def TOURNAMENT : Int := 2

/-- Modelled from the spec: `predictor.h`, predictor type "Custom" (`bpName[3]`). -/
def CUSTOM : Int := 3

/-- Length of `ghr_c`, the number of weights of a perceptron (`#define N 32`). -/
def N : Nat := 32

/-- Space budget (`#define Space (64 * 1024)`). -/
def Space : Nat := 64 * 1024

/-- A hundred times the training threshold (`#define theta (N * 1.93 + 14)`, that is
75.76).  The C value is a `double` next to 75.76 and is only ever compared with an
`int`; every number strictly between 75 and 76 gives the same comparisons, so the
comparisons `y <= theta` and `y >= (-1) * theta` are carried out exactly, in integers,
after multiplying both sides by 100. -/
def theta100 : Int := (N : Int) * 193 + 1400

/-- Bit length of a weight (`#define BitsInWeight 8`). -/
def BitsInWeight : Nat := 8

/-- Largest weight (`#define MaxWeight 127`). -/
def MaxWeight : Int := 127

/-- Smallest weight (`#define MinWeight -128`). -/
def MinWeight : Int := -128

/-- Number of entries in the perceptron table
(`#define EntryNumber ((int)(Space / ((N + 1) * BitsInWeight)))`, an integer division). -/
def EntryNumber : Nat := Space / ((N + 1) * BitsInWeight)

/-! ## State -/

/-- The global variables of `predictor.c`. -/
structure State where
  /-- Declared as `int ghistoryBits` -/
  ghistoryBits : Nat
  /-- Declared as `int lhistoryBits` -/
  lhistoryBits : Nat
  /-- Declared as `int pcIndexBits` -/
  pcIndexBits : Nat
  /-- Declared as `int bpType` -/
  bpType : Int
  /-- Declared as `int verbose` -/
  verbose : Int
  /-- Declared as `uint32_t gsize` -/
  gsize : Nat
  /-- Declared as `uint32_t lsb` -/
  lsb : Nat
  /-- Declared as `uint32_t ghr` -/
  ghr : Nat
  /-- Declared as `uint8_t* gpht` -/
  gpht : List Nat
  /-- Declared as `uint32_t* lhr` -/
  lhr : List Nat
  /-- Declared as `uint32_t lhrSize` -/
  lhrSize : Nat
  /-- Declared as `uint32_t* lpht` -/
  lpht : List Nat
  /-- Declared as `uint32_t lphtSize` -/
  lphtSize : Nat
  /-- Declared as `uint32_t* cpht` -/
  cpht : List Nat
  /-- Declared as `int PT[EntryNumber][N]` -/
  PT : List (List Int)
  /-- Declared as `int bias[EntryNumber]` -/
  bias : List Int
  /-- Declared as `uint32_t ghr_c` -/
  ghr_c : Nat
  /-- Declared as `int indexPT`; it is only ever assigned `pc % EntryNumber`, which is not negative -/
  indexPT : Nat
  /-- Declared as `int y` -/
  y : Int
  /-- Declared as `uint8_t pred_c` -/
  pred_c : Nat
deriving DecidableEq

/-- The globals as the C runtime sets them up before `main` (all zero, pointers null),
with the four configuration variables as the driver assigns them before it calls
`init_predictor`. -/
def boot (bpType : Int) (ghistoryBits lhistoryBits pcIndexBits : Nat) : State where
  ghistoryBits := ghistoryBits
  lhistoryBits := lhistoryBits
  pcIndexBits := pcIndexBits
  bpType := bpType
  verbose := 0
  gsize := 0
  lsb := 0
  ghr := 0
  gpht := []
  lhr := []
  lhrSize := 0
  lpht := []
  lphtSize := 0
  cpht := []
  PT := List.replicate EntryNumber (List.replicate N 0)
  bias := List.replicate EntryNumber 0
  ghr_c := 0
  indexPT := 0
  y := 0
  pred_c := 0

/-! ## Saturating counters -/

/-- The update that `train_gshare` (lines 177-182) and `train_tournament`
(lines 240-245 and 249-254) apply to cell `i` of a counter table `t`:
`if (outcome) { if (t[i] != 3) t[i]++; } else { if (t[i] != 0) t[i]--; }`.
`width` is the modulus of the cell type (`2^8` for `gpht`, `2^32` for `lpht`). -/
def counter_update (width : Nat) (t : List Nat) (i : Nat) (outcome : Nat) :
    Option (List Nat) := do
  let c ← t[i]?
  if outcome ≠ 0 then
    if c ≠ 3 then pure (t.set i ((c + 1) % width)) else pure t
  else
    if c ≠ 0 then pure (t.set i (c - 1)) else pure t

/-! ## Gshare -/

/-- The C function `init_gshare` (lines 159-165). -/
def init_gshare (s : State) : State :=
  { s with ghr := 0, gpht := List.replicate s.gsize WN }

/-- The C function `pred_gshare` (lines 167-170). -/
def pred_gshare (s : State) (pc : Nat) : Option Nat := do
  let index := (s.ghr ^^^ pc) &&& s.lsb
  let c ← s.gpht[index]?
  pure (u8 (c >>> 1))

/-- The C function `train_gshare` (lines 172-183). -/
def train_gshare (s : State) (pc : Nat) (outcome : Nat) : Option State := do
  let index := (s.ghr ^^^ pc) &&& s.lsb
  let ghr := (u32 (s.ghr <<< 1) ||| outcome) &&& s.lsb
  let gpht ← counter_update (2 ^ 8) s.gpht index outcome
  pure { s with ghr := ghr, gpht := gpht }

/-! ## Tournament -/

/-- The C function `init_tournament` (lines 186-202). -/
def init_tournament (s : State) : Option State := do
  let s := init_gshare s
  let lhrSize ← one_shl s.pcIndexBits
  let s := { s with lhrSize := lhrSize, lhr := List.replicate lhrSize NOTTAKEN }
  let lphtSize ← one_shl s.lhistoryBits
  let s := { s with lphtSize := lphtSize, lpht := List.replicate lphtSize WN }
  pure { s with cpht := List.replicate s.gsize WN }

/-- The C function `pred_local` (lines 204-209). -/
def pred_local (s : State) (pc : Nat) : Option Nat := do
  let LSB := pc &&& u32 (s.lhrSize + 2 ^ 32 - 1)
  let branchHistory ← s.lhr[LSB]?
  let c ← s.lpht[branchHistory]?
  if c ≥ WT then pure TAKEN else pure NOTTAKEN

/-- The C function `pred_global` (lines 211-215); the argument `pc` is not used by the C function. -/
def pred_global (s : State) (_pc : Nat) : Option Nat := do
  let phtIndex := s.ghr &&& u32 (s.gsize + 2 ^ 32 - 1)
  let c ← s.gpht[phtIndex]?
  if c ≥ WT then pure TAKEN else pure NOTTAKEN

/-- The C function `pred_tournament` (lines 217-225). -/
def pred_tournament (s : State) (pc : Nat) : Option Nat := do
  let predSelection ← s.cpht[s.ghr]?
  if predSelection ≤ WN then pred_global s pc else pred_local s pc

/-- The chooser part of `train_tournament` (lines 229-238), returning the new `cpht`. -/
def train_chooser (s : State) (pc : Nat) (outcome : Nat) : Option (List Nat) := do
  let globalOutcome ← pred_global s pc
  let localOutcome ← pred_local s pc
  if globalOutcome ≠ localOutcome then
    let cpht1 ←
      if globalOutcome = outcome then do
        let c ← s.cpht[s.ghr]?
        if c ≠ 0 then pure (s.cpht.set s.ghr (c - 1)) else pure s.cpht
      else pure s.cpht
    let cpht2 ←
      if localOutcome = outcome then do
        let c ← cpht1[s.ghr]?
        if c ≠ 3 then pure (cpht1.set s.ghr (u32 (c + 1))) else pure cpht1
      else pure cpht1
    pure cpht2
  else pure s.cpht

/-- The C function `train_tournament` (lines 227-257). -/
def train_tournament (s : State) (pc : Nat) (outcome : Nat) : Option State := do
  -- choice selector
  let cpht ← train_chooser s pc outcome
  -- gshare predictor
  let gpht ← counter_update (2 ^ 8) s.gpht s.ghr outcome
  -- local predictor
  let LSB := pc &&& u32 (s.lhrSize + 2 ^ 32 - 1)
  let lphtIndex ← s.lhr[LSB]?
  let lpht ← counter_update (2 ^ 32) s.lpht lphtIndex outcome
  let ghr := (u32 (s.ghr <<< 1) ||| outcome) &&& s.lsb
  let lhr := s.lhr.set LSB ((u32 (lphtIndex <<< 1) ||| outcome) &&& u32 (s.lphtSize + 2 ^ 32 - 1))
  pure { s with cpht := cpht, gpht := gpht, lpht := lpht, ghr := ghr, lhr := lhr }

/-! ## Custom: perceptron -/

/-- The C function `init_custom` (lines 260-268). -/
def init_custom (s : State) : State :=
  { s with
    ghr_c := 0
    bias := List.replicate EntryNumber 0
    PT := List.replicate EntryNumber (List.replicate N 0) }

/-- The loop of `pred_custom` (lines 276-282) on the row `PT[indexPT]`: `k` iterations
remain, `i` is the loop variable, `mask` and `y` the C variables of these names. -/
def pred_custom_loop (row : List Int) (ghr_c : Nat) : Nat → Nat → Nat → Int → Option Int
  | 0, _, _, y => some y
  | k + 1, i, mask, y => do
    let w ← row[i]?
    let x : Int := if ghr_c &&& mask = 0 then -1 else 1
    pred_custom_loop row ghr_c k (i + 1) (u32 (mask <<< 1)) (i32 (y + i32 (w * x)))

/-- The C function `pred_custom` (lines 270-286): the prediction and the state it leaves behind. -/
def pred_custom (s : State) (pc : Nat) : Option (Nat × State) := do
  let indexPT := pc % EntryNumber
  let b ← s.bias[indexPT]?
  let row ← s.PT[indexPT]?
  let y ← pred_custom_loop row s.ghr_c N 0 1 b
  let pred_c := if y > 0 then TAKEN else NOTTAKEN
  pure (pred_c, { s with indexPT := indexPT, y := y, pred_c := pred_c })

/-- The weight loop of `train_custom` (lines 299-312) on the row `PT[indexPT]`. -/
def train_custom_loop (ghr_c : Nat) (outcome : Nat) : Nat → Nat → Nat → List Int → Option (List Int)
  | 0, _, _, row => some row
  | k + 1, i, mask, row => do
    let x : Int :=
      if (ghr_c &&& mask = 0 ∧ outcome = 0) ∨ (ghr_c &&& mask ≠ 0 ∧ outcome = 1) then 1 else -1
    let w ← row[i]?
    let row1 := if w > MinWeight ∧ w < MaxWeight then row.set i (w + x) else row
    train_custom_loop ghr_c outcome k (i + 1) (u32 (mask <<< 1)) row1

/-- The C function `train_custom` (lines 288-315). -/
def train_custom (s : State) (_pc : Nat) (outcome : Nat) : Option State := do
  let s1 ←
    if ((100 * s.y ≤ theta100 ∧ 100 * s.y ≥ (-1) * theta100) ∨ s.pred_c ≠ outcome) then do
      -- train bias
      let b ← s.bias[s.indexPT]?
      let bias :=
        if b < MaxWeight ∧ b > MinWeight then
          if outcome = 1 then s.bias.set s.indexPT (b + 1) else s.bias.set s.indexPT (b + -1)
        else s.bias
      -- train weights
      let row ← s.PT[s.indexPT]?
      let row1 ← train_custom_loop s.ghr_c outcome N 0 1 row
      pure { s with bias := bias, PT := s.PT.set s.indexPT row1 }
    else pure s
  pure { s1 with ghr_c := u32 (s1.ghr_c <<< 1) ||| outcome }

/-! ## Dispatcher -/

/-- The C function `init_predictor` (lines 101-115); the `switch` has no `break` before `default`. -/
def init_predictor (s : State) : Option State := do
  let gsize ← one_shl s.ghistoryBits
  let s := { s with gsize := gsize, lsb := u32 (gsize + 2 ^ 32 - 1) }
  if s.bpType = GSHARE then
    let s := init_gshare s
    let s ← init_tournament s
    pure (init_custom s)
  else if s.bpType = TOURNAMENT then
    let s ← init_tournament s
    pure (init_custom s)
  else if s.bpType = CUSTOM then
    pure (init_custom s)
  else
    pure s

/-- The C function `make_prediction` (lines 121-138): the prediction and the state after the call. -/
def make_prediction (s : State) (pc : Nat) : Option (Nat × State) :=
  if s.bpType = STATIC then some (TAKEN, s)
  else if s.bpType = GSHARE then (pred_gshare s pc).map (fun r => (r, s))
  else if s.bpType = TOURNAMENT then (pred_tournament s pc).map (fun r => (r, s))
  else if s.bpType = CUSTOM then pred_custom s pc
  else some (NOTTAKEN, s)

/-- The C function `train_predictor` (lines 144-155); the `switch` has no `break` before `default`. -/
def train_predictor (s : State) (pc : Nat) (outcome : Nat) : Option State :=
  if s.bpType = GSHARE then do
    let s ← train_gshare s pc outcome
    let s ← train_tournament s pc outcome
    train_custom s pc outcome
  else if s.bpType = TOURNAMENT then do
    let s ← train_tournament s pc outcome
    train_custom s pc outcome
  else if s.bpType = CUSTOM then
    train_custom s pc outcome
  else
    some s

/-! ## Call sequences -/

/-- One call of the driver into the predictor. -/
inductive Call where
  | predict (pc : Nat)
  | train (pc : Nat) (outcome : Nat)
deriving DecidableEq

/-- The state after one call. -/
def step (s : State) : Call → Option State
  | Call.predict pc => (make_prediction s pc).map Prod.snd
  | Call.train pc outcome => train_predictor s pc outcome

/-- The state after a sequence of calls. -/
def run (s : State) : List Call → Option State
  | [] => some s
  | c :: cs => (step s c).bind (fun s1 => run s1 cs)

/-- The state after `n` consecutive calls `train_gshare(pc, outcome)`. -/
def train_gshare_times (s : State) (pc : Nat) (outcome : Nat) : Nat → Option State
  | 0 => some s
  | n + 1 => (train_gshare s pc outcome).bind (fun s1 => train_gshare_times s1 pc outcome n)

/-! ## Specification-side definitions, predicates and example states -/

/-- Section 4.1 of the specification, the `train(outcome)` of a saturating counter:
increment if the outcome is Taken and the value is below 3, decrement if the outcome
is Not-Taken and the value is above 0, no change at the saturation bounds. -/
def spec_counter_train (c : Nat) (outcome : Nat) : Nat :=
  if outcome = TAKEN then (if c < 3 then c + 1 else c) else (if c > 0 then c - 1 else c)

/-- Section 4.1 of the specification, the `predict()` of a saturating counter:
Taken iff the value is at least 2. -/
def spec_counter_predict (c : Nat) : Nat := if c ≥ 2 then TAKEN else NOTTAKEN

/-- The value that `counter_update` leaves in the cell it addresses. -/
def counter_next (width : Nat) (c : Nat) (outcome : Nat) : Nat :=
  if outcome ≠ 0 then (if c ≠ 3 then (c + 1) % width else c) else (if c ≠ 0 then c - 1 else c)

/-- Every counter of the three pattern tables is in `[0, 3]`. -/
def CountersOK (s : State) : Prop :=
  (∀ c ∈ s.gpht, c ≤ 3) ∧ (∀ c ∈ s.lpht, c ≤ 3) ∧ (∀ c ∈ s.cpht, c ≤ 3)

/-- A state whose Gshare part is laid out as `init_gshare` leaves it: the mask is
`2^ghistoryBits - 1` and the global pattern table has `2^ghistoryBits` cells. -/
def GshareWF (s : State) : Prop :=
  s.ghistoryBits < 32 ∧ s.lsb = 2 ^ s.ghistoryBits - 1 ∧ s.gpht.length = 2 ^ s.ghistoryBits

/-- A state whose tables are laid out as `init_tournament` leaves them, with the
history registers inside their widths. -/
def TournamentWF (s : State) : Prop :=
  s.ghistoryBits < 32 ∧ s.lhistoryBits < 32 ∧ s.pcIndexBits < 32
  ∧ s.gsize = 2 ^ s.ghistoryBits ∧ s.lsb = 2 ^ s.ghistoryBits - 1
  ∧ s.lhrSize = 2 ^ s.pcIndexBits ∧ s.lphtSize = 2 ^ s.lhistoryBits
  ∧ s.gpht.length = 2 ^ s.ghistoryBits ∧ s.cpht.length = 2 ^ s.ghistoryBits
  ∧ s.lhr.length = 2 ^ s.pcIndexBits ∧ s.lpht.length = 2 ^ s.lhistoryBits
  ∧ s.ghr < 2 ^ s.ghistoryBits ∧ (∀ h ∈ s.lhr, h < 2 ^ s.lhistoryBits)

/-- The perceptron arrays have their declared dimensions
(`int PT[EntryNumber][N]`, `int bias[EntryNumber]`) and `indexPT` addresses an entry. -/
def PerceptronWF (s : State) : Prop :=
  s.bias.length = EntryNumber ∧ s.PT.length = EntryNumber
  ∧ (∀ row ∈ s.PT, row.length = N) ∧ s.indexPT < EntryNumber

/-- The invariant of the states reachable from `init_predictor`. -/
def Reachable_inv (s : State) : Prop :=
  PerceptronWF s ∧ CountersOK s
  ∧ ((s.bpType = GSHARE ∨ s.bpType = TOURNAMENT) → TournamentWF s)

/-- A small Gshare state: `ghistoryBits = 2`, history register 2, counters `[0, 1, 2, 3]`. -/
def gshare_example : State :=
  { boot GSHARE 2 0 0 with gsize := 4, lsb := 3, ghr := 2, gpht := [0, 1, 2, 3] }

/-- The value that `train_chooser` leaves in `cpht[ghr]`, from the value `c` it finds
there and the two sub-predictions `g` (global) and `l` (local). -/
def chooser_next (c g l outcome : Nat) : Nat :=
  if g ≠ l then
    if g = outcome then (if c ≠ 0 then c - 1 else c)
    else if l = outcome then (if c ≠ 3 then u32 (c + 1) else c)
    else c
  else c

/-- A small tournament state (`ghistoryBits = pcIndexBits = lhistoryBits = 1`) in which
the global sub-prediction (counter 3 at `gpht[1]`) and the local one (counter 0 at
`lpht[lhr[1]]`) disagree and the chooser counter `cpht[1]` is 2. -/
def tournament_example : State :=
  { boot TOURNAMENT 1 1 1 with
    gsize := 2, lsb := 1, ghr := 1, gpht := [1, 3], cpht := [1, 2]
    lhrSize := 2, lhr := [0, 1], lphtSize := 2, lpht := [1, 0] }

/-- Section 4.4 of the specification, the input `x_i` of the perceptron: `+1` if bit `i`
of the history register is 1, else `-1`. -/
def spec_history_input (ghr : Nat) (i : Nat) : Int := if ghr.testBit i then 1 else -1

/-- Section 4.4 of the specification, the output of entry `e`:
`bias[e] + Σ_{i=0..N-1} weight[e][i] × x_i`, as a mathematical integer. -/
def spec_perceptron_output (s : State) (e : Nat) : Int :=
  s.bias.getD e 0
    + ((List.range N).map (fun i => (s.PT.getD e []).getD i 0 * spec_history_input s.ghr_c i)).sum

/-- The part of the weighted sum that the iterations `i, ..., i + k - 1` of the loop of
`pred_custom` add to `y`. -/
def weighted_sum (row : List Int) (ghr : Nat) (i k : Nat) : Int :=
  ((List.range' i k).map (fun j => row.getD j 0 * spec_history_input ghr j)).sum

/-- The bias and the `N` weights of entry `e` are in `[MinWeight, MaxWeight]`. -/
def EntryInRange (s : State) (e : Nat) : Prop :=
  (MinWeight ≤ s.bias.getD e 0 ∧ s.bias.getD e 0 ≤ MaxWeight)
  ∧ ∀ w ∈ s.PT.getD e [], MinWeight ≤ w ∧ w ≤ MaxWeight

/-- A perceptron state: the tables after `init_custom`, entry 5 set to bias 3 and
weights `1, -2, 0, ..., 0`, history register `0b01`. -/
def perceptron_example : State :=
  { boot CUSTOM 0 0 0 with
    bias := (List.replicate EntryNumber 0).set 5 3
    PT := (List.replicate EntryNumber (List.replicate N 0)).set 5
      ([1, -2] ++ List.replicate 30 0)
    ghr_c := 1 }

/-- The value that `train_custom` leaves in `bias[indexPT]` when training fires
(lines 293-296). -/
def bias_next (outcome : Nat) (b : Int) : Int :=
  if b < MaxWeight ∧ b > MinWeight then (if outcome = 1 then b + 1 else b + -1) else b

/-- The value that iteration `i` of the weight loop of `train_custom` leaves in
`PT[indexPT][i]` (lines 301-310). -/
def weight_next (ghr_c outcome i : Nat) (w : Int) : Int :=
  if w > MinWeight ∧ w < MaxWeight then
    w + (if (ghr_c &&& 2 ^ i = 0 ∧ outcome = 0) ∨ (ghr_c &&& 2 ^ i ≠ 0 ∧ outcome = 1)
      then 1 else -1)
  else w

/-- Section 4.4 of the specification, the step of the bias: `+1` if the outcome is
Taken, else `-1`. -/
def spec_bias_step (outcome : Nat) : Int := if outcome = TAKEN then 1 else -1

/-- Section 4.4 of the specification, the step of weight `i`: `+1` if bit `i` of the
history register equals the outcome, else `-1`. -/
def spec_weight_step (ghr outcome i : Nat) : Int :=
  if ghr.testBit i = decide (outcome = TAKEN) then 1 else -1

/-- The update that the guards of `train_custom` (lines 293 and 308) implement: the
step is applied to a value strictly between `MinWeight` and `MaxWeight`, and a value
at either bound is left as it is. -/
def sticky_step (w d : Int) : Int := if MinWeight < w ∧ w < MaxWeight then w + d else w

/-- Every bias and every weight of the perceptron table is in `[MinWeight, MaxWeight]`. -/
def WeightsInRange (s : State) : Prop :=
  (∀ b ∈ s.bias, MinWeight ≤ b ∧ b ≤ MaxWeight)
  ∧ ∀ row ∈ s.PT, ∀ w ∈ row, MinWeight ≤ w ∧ w ≤ MaxWeight

/-- The state after one direct call of `pred_custom` or `train_custom`. -/
def step_custom (s : State) : Call → Option State
  | Call.predict pc => (pred_custom s pc).map Prod.snd
  | Call.train pc outcome => train_custom s pc outcome

/-- The state after a sequence of direct calls of `pred_custom` / `train_custom`. -/
def run_custom (s : State) : List Call → Option State
  | [] => some s
  | c :: cs => (step_custom s c).bind (fun s1 => run_custom s1 cs)

/-- The configuration of `s` is the configuration of `s1`, and for a predictor type
other than Gshare and Tournament the history registers are the same too. -/
def SameConfig (s s1 : State) : Prop :=
  s1.ghistoryBits = s.ghistoryBits ∧ s1.lhistoryBits = s.lhistoryBits
  ∧ s1.pcIndexBits = s.pcIndexBits ∧ s1.bpType = s.bpType
  ∧ (¬ (s.bpType = GSHARE ∨ s.bpType = TOURNAMENT) → s1.ghr = s.ghr ∧ s1.lhr = s.lhr)

/-- The history registers are inside their configured widths. -/
def WidthsOK (s : State) : Prop :=
  s.ghr < 2 ^ s.ghistoryBits ∧ ∀ h ∈ s.lhr, h < 2 ^ s.lhistoryBits

/-- A Gshare state as `init_predictor` lays it out (`ghistoryBits = 2`,
`lhistoryBits = pcIndexBits = 0`), with history register 2 and counters `[0, 1, 2, 3]`. -/
def gshare_fall_example : State :=
  { boot GSHARE 2 0 0 with
    gsize := 4, lsb := 3, ghr := 2, gpht := [0, 1, 2, 3], cpht := [1, 1, 1, 1]
    lhrSize := 1, lhr := [0], lphtSize := 1, lpht := [1] }

/-- The bias and the `N` weights of entry `e` are strictly between `MinWeight` and
`MaxWeight`. -/
def EntryStrictlyInside (s : State) (e : Nat) : Prop :=
  (MinWeight < s.bias.getD e 0 ∧ s.bias.getD e 0 < MaxWeight)
  ∧ ∀ w ∈ s.PT.getD e [], MinWeight < w ∧ w < MaxWeight

/-! ## Machine arithmetic: lemmas -/

theorem list_set_same {α : Type} {t : List α} {i : Nat} {c : α} (h : t[i]? = some c) :
    t.set i c = t := by
  apply List.ext_getElem?
  intro j
  rw [List.getElem?_set]
  split_ifs with h1 h2
  · subst h1; exact h.symm
  · subst h1
    rw [List.getElem?_eq_some] at h
    exact absurd h.1 h2
  · rfl

theorem u32_pow_pred {b : Nat} (hb : b < 32) : u32 (2 ^ b + 2 ^ 32 - 1) = 2 ^ b - 1 := by
  have h1 : 0 < 2 ^ b := Nat.two_pow_pos b
  have h2 : 2 ^ b < 2 ^ 32 := Nat.pow_lt_pow_right (by norm_num) hb
  unfold u32
  have : 2 ^ b + 2 ^ 32 - 1 = (2 ^ b - 1) + 2 ^ 32 := by omega
  rw [this, Nat.add_mod_right]
  exact Nat.mod_eq_of_lt (by omega)

theorem one_shl_eq {b : Nat} (hb : b < 32) : one_shl b = some (2 ^ b) := by
  have h2 : 2 ^ b < 2 ^ 32 := Nat.pow_lt_pow_right (by norm_num) hb
  simp only [one_shl, hb, if_true, u32, Nat.one_shiftLeft]
  rw [Nat.mod_eq_of_lt h2]

/-- Shifting in `uint32_t` and masking to at most 32 bits is shifting and masking. -/
theorem shift_or_mask {b : Nat} (hb : b ≤ 32) (g o : Nat) :
    (u32 (g <<< 1) ||| o) &&& (2 ^ b - 1) = ((g <<< 1) ||| o) &&& (2 ^ b - 1) := by
  apply Nat.eq_of_testBit_eq
  intro i
  simp only [Nat.testBit_and, Nat.testBit_or, u32, Nat.testBit_mod_two_pow,
    Nat.testBit_two_pow_sub_one]
  by_cases hi : i < b
  · have : i < 32 := by omega
    simp [hi, this]
  · simp [hi]

theorem and_pow_pred_lt (x b : Nat) : x &&& (2 ^ b - 1) < 2 ^ b := by
  rw [Nat.and_pow_two_sub_one_eq_mod]
  exact Nat.mod_lt _ (Nat.two_pow_pos b)

theorem and_pow_pred_of_lt {x b : Nat} (h : x < 2 ^ b) : x &&& (2 ^ b - 1) = x := by
  rw [Nat.and_pow_two_sub_one_eq_mod]
  exact Nat.mod_eq_of_lt h

/-! ## Saturating counters: lemmas -/

theorem counter_update_eq {width : Nat} {t : List Nat} {i c : Nat} (outcome : Nat)
    (h : t[i]? = some c) :
    counter_update width t i outcome = some (t.set i (counter_next width c outcome)) := by
  unfold counter_update counter_next
  simp only [h, Option.bind_eq_bind, Option.some_bind]
  split_ifs <;> simp [list_set_same h]

theorem counter_next_le (width : Nat) {c : Nat} (outcome : Nat) (h : c ≤ 3) :
    counter_next width c outcome ≤ 3 := by
  unfold counter_next
  split_ifs
  · exact le_trans (Nat.mod_le _ _) (by omega)
  · exact h
  · omega
  · exact h

theorem counter_next_eq_spec (width : Nat) {c outcome : Nat} (hw : 4 ≤ width) (hc : c ≤ 3)
    (ho : outcome = NOTTAKEN ∨ outcome = TAKEN) :
    counter_next width c outcome = spec_counter_train c outcome := by
  unfold counter_next spec_counter_train
  rcases ho with ho | ho <;> subst ho <;> simp only [NOTTAKEN, TAKEN]
  · rcases Nat.eq_zero_or_pos c with h0 | h0
    · simp [h0]
    · have : c ≠ 0 := by omega
      simp [this, h0]
  · by_cases h3 : c = 3
    · simp [h3]
    · have h4 : c < 3 := by omega
      have : (c + 1) % width = c + 1 := Nat.mod_eq_of_lt (by omega)
      simp [h3, h4, this]

theorem forall_mem_set_le {t : List Nat} {i v b : Nat} (h : ∀ c ∈ t, c ≤ b) (hv : v ≤ b) :
    ∀ c ∈ t.set i v, c ≤ b := by
  intro c hc
  rcases List.mem_or_eq_of_mem_set hc with h1 | h1
  · exact h c h1
  · rw [h1]; exact hv

theorem forall_mem_set_lt {t : List Nat} {i v b : Nat} (h : ∀ c ∈ t, c < b) (hv : v < b) :
    ∀ c ∈ t.set i v, c < b := by
  intro c hc
  rcases List.mem_or_eq_of_mem_set hc with h1 | h1
  · exact h c h1
  · rw [h1]; exact hv

/-! ## Gshare: lemmas -/

theorem train_gshare_eq {s : State} {pc c : Nat} (outcome : Nat)
    (h : s.gpht[(s.ghr ^^^ pc) &&& s.lsb]? = some c) :
    train_gshare s pc outcome = some
      { s with
        ghr := (u32 (s.ghr <<< 1) ||| outcome) &&& s.lsb
        gpht := s.gpht.set ((s.ghr ^^^ pc) &&& s.lsb) (counter_next (2 ^ 8) c outcome) } := by
  unfold train_gshare
  simp only [counter_update_eq outcome h, Option.bind_eq_bind, Option.some_bind]
  rfl

theorem gshare_index_lt {s : State} (h : GshareWF s) (pc : Nat) :
    (s.ghr ^^^ pc) &&& s.lsb < s.gpht.length := by
  obtain ⟨_, h2, h3⟩ := h
  rw [h2, h3]
  exact and_pow_pred_lt _ _

theorem spec_counter_predict_eq {c : Nat} (h : c ≤ 3) : u8 (c >>> 1) = spec_counter_predict c := by
  unfold u8 spec_counter_predict TAKEN NOTTAKEN
  interval_cases c <;> decide

/-! ## Tournament: lemmas -/

theorem pred_global_eq {s : State} {g : Nat} (pc : Nat)
    (hidx : s.ghr &&& u32 (s.gsize + 2 ^ 32 - 1) = s.ghr) (hg : s.gpht[s.ghr]? = some g) :
    pred_global s pc = some (spec_counter_predict g) := by
  unfold pred_global spec_counter_predict
  simp only [hidx, hg, Option.bind_eq_bind, Option.some_bind, WT]
  split_ifs <;> rfl

theorem pred_local_eq {s : State} {pc L l : Nat}
    (hL : s.lhr[pc &&& u32 (s.lhrSize + 2 ^ 32 - 1)]? = some L) (hl : s.lpht[L]? = some l) :
    pred_local s pc = some (spec_counter_predict l) := by
  unfold pred_local spec_counter_predict
  simp only [hL, hl, Option.bind_eq_bind, Option.some_bind, WT]
  split_ifs <;> rfl

theorem train_chooser_eq {s : State} {pc c g l : Nat} (outcome : Nat)
    (hg : pred_global s pc = some g) (hl : pred_local s pc = some l)
    (hc : s.cpht[s.ghr]? = some c) :
    train_chooser s pc outcome = some (s.cpht.set s.ghr (chooser_next c g l outcome)) := by
  unfold train_chooser chooser_next
  simp only [hg, hl, Option.bind_eq_bind, Option.some_bind]
  by_cases hne : g = l
  · simp [hne, list_set_same hc]
  · by_cases h1 : g = outcome
    · subst h1
      have h2 : ¬ l = g := fun h => hne h.symm
      by_cases h0 : c = 0
      · simp [hne, h2, hc, h0, list_set_same (h0 ▸ hc)]
      · simp [hne, h2, hc, h0]
    · by_cases h2 : l = outcome
      · by_cases h3 : c = 3
        · simp [hne, h1, h2, hc, h3, list_set_same (h3 ▸ hc)]
        · simp [hne, h1, h2, hc, h3]
      · simp [hne, h1, h2, list_set_same hc]

theorem train_tournament_eq {s : State} {pc c g l g0 L l0 : Nat} (outcome : Nat)
    (hg : pred_global s pc = some g) (hl : pred_local s pc = some l)
    (hc : s.cpht[s.ghr]? = some c) (hg0 : s.gpht[s.ghr]? = some g0)
    (hL : s.lhr[pc &&& u32 (s.lhrSize + 2 ^ 32 - 1)]? = some L) (hl0 : s.lpht[L]? = some l0) :
    train_tournament s pc outcome = some
      { s with
        cpht := s.cpht.set s.ghr (chooser_next c g l outcome)
        gpht := s.gpht.set s.ghr (counter_next (2 ^ 8) g0 outcome)
        lpht := s.lpht.set L (counter_next (2 ^ 32) l0 outcome)
        ghr := (u32 (s.ghr <<< 1) ||| outcome) &&& s.lsb
        lhr := s.lhr.set (pc &&& u32 (s.lhrSize + 2 ^ 32 - 1))
          ((u32 (L <<< 1) ||| outcome) &&& u32 (s.lphtSize + 2 ^ 32 - 1)) } := by
  unfold train_tournament
  simp only [train_chooser_eq outcome hg hl hc, counter_update_eq outcome hg0, hL,
    counter_update_eq outcome hl0, Option.bind_eq_bind, Option.some_bind]
  rfl

/-- The table reads of a well-formed tournament state all succeed. -/
theorem tournament_reads {s : State} (hwf : TournamentWF s) (pc : Nat) :
    ∃ c g0 L l0,
      s.cpht[s.ghr]? = some c ∧ s.gpht[s.ghr]? = some g0
      ∧ s.lhr[pc &&& (2 ^ s.pcIndexBits - 1)]? = some L ∧ s.lpht[L]? = some l0
      ∧ L < 2 ^ s.lhistoryBits
      ∧ s.ghr &&& u32 (s.gsize + 2 ^ 32 - 1) = s.ghr
      ∧ u32 (s.lhrSize + 2 ^ 32 - 1) = 2 ^ s.pcIndexBits - 1
      ∧ u32 (s.lphtSize + 2 ^ 32 - 1) = 2 ^ s.lhistoryBits - 1 := by
  obtain ⟨hgb, hlb, hpb, hgsize, hlsb, hlhrSize, hlphtSize, hgl, hcl, hll, hlpl, hghr, hlhr⟩ := hwf
  have h1 : s.ghr < s.cpht.length := by rw [hcl]; exact hghr
  have h2 : s.ghr < s.gpht.length := by rw [hgl]; exact hghr
  have h3 : pc &&& (2 ^ s.pcIndexBits - 1) < s.lhr.length := by
    rw [hll]; exact and_pow_pred_lt _ _
  have h4 : s.lhr[pc &&& (2 ^ s.pcIndexBits - 1)] < 2 ^ s.lhistoryBits :=
    hlhr _ (List.getElem_mem _)
  have h5 : s.lhr[pc &&& (2 ^ s.pcIndexBits - 1)] < s.lpht.length := by rw [hlpl]; exact h4
  refine ⟨s.cpht[s.ghr], s.gpht[s.ghr], s.lhr[pc &&& (2 ^ s.pcIndexBits - 1)],
    s.lpht[s.lhr[pc &&& (2 ^ s.pcIndexBits - 1)]], List.getElem?_eq_getElem h1,
    List.getElem?_eq_getElem h2, List.getElem?_eq_getElem h3, List.getElem?_eq_getElem h5,
    h4, ?_, ?_, ?_⟩
  · rw [hgsize, u32_pow_pred hgb]; exact and_pow_pred_of_lt hghr
  · rw [hlhrSize, u32_pow_pred hpb]
  · rw [hlphtSize, u32_pow_pred hlb]

/-! ## Perceptron: lemmas -/

theorem i32_of_fits {z : Int} (h1 : -2 ^ 31 ≤ z) (h2 : z < 2 ^ 31) : i32 z = z := by
  unfold i32
  rw [Int.emod_eq_of_lt (by omega) (by omega)]
  omega

theorem i32_add_left (a b : Int) : i32 (i32 a + b) = i32 (a + b) := by
  unfold i32
  have : (a + 2 ^ 31) % 2 ^ 32 - 2 ^ 31 + b + 2 ^ 31 = (a + 2 ^ 31) % 2 ^ 32 + b := by ring
  rw [this, Int.emod_add_emod]
  congr 2
  ring

theorem i32_add_right (a b : Int) : i32 (a + i32 b) = i32 (a + b) := by
  rw [add_comm, i32_add_left, add_comm]

theorem and_two_pow_eq_zero (g i : Nat) : (g &&& 2 ^ i = 0) ↔ g.testBit i = false := by
  rw [Nat.and_two_pow]
  cases h : g.testBit i <;> simp

theorem spec_history_input_eq (ghr i : Nat) :
    (if ghr &&& 2 ^ i = 0 then (-1 : Int) else 1) = spec_history_input ghr i := by
  unfold spec_history_input
  by_cases hb : ghr.testBit i = true
  · have : ¬ (ghr &&& 2 ^ i = 0) := by rw [and_two_pow_eq_zero]; simp [hb]
    simp [hb, this]
  · have : ghr &&& 2 ^ i = 0 := by rw [and_two_pow_eq_zero]; simpa using hb
    simp [hb, this]

theorem mask_shift {i k : Nat} (h : i + (k + 1) ≤ 32) (hk : 0 < k) :
    u32 (2 ^ i <<< 1) = 2 ^ (i + 1) := by
  have : 2 ^ (i + 1) < 2 ^ 32 := Nat.pow_lt_pow_right (by norm_num) (by omega)
  rw [Nat.shiftLeft_eq, ← pow_succ]
  exact Nat.mod_eq_of_lt this

/-- The loop of `pred_custom` adds the weighted sum of its iterations, reducing to
32 bits. -/
theorem pred_custom_loop_eq (row : List Int) (ghr : Nat) :
    ∀ (k i mask : Nat) (y : Int), i + k ≤ row.length → i + k ≤ 32 → (0 < k → mask = 2 ^ i) →
      pred_custom_loop row ghr k i mask y
        = some (if k = 0 then y else i32 (y + weighted_sum row ghr i k)) := by
  intro k
  induction k with
  | zero =>
    intro i mask y _ _ _
    simp [pred_custom_loop]
  | succ k ih =>
    intro i mask y h1 h2 hm
    have hmask := hm (Nat.succ_pos k)
    subst hmask
    have hi : i < row.length := by omega
    have hsum : weighted_sum row ghr i (k + 1)
        = row[i] * spec_history_input ghr i + weighted_sum row ghr (i + 1) k := by
      unfold weighted_sum
      rw [List.range'_succ, List.map_cons, List.sum_cons, List.getD_eq_getElem row 0 hi]
    unfold pred_custom_loop
    simp only [List.getElem?_eq_getElem hi, Option.bind_eq_bind, Option.some_bind]
    rw [ih (i + 1) _ _ (by omega) (by omega) (mask_shift h2), spec_history_input_eq, hsum]
    congr 1
    rw [if_neg (Nat.succ_ne_zero k)]
    by_cases hk : k = 0
    · subst hk
      simp [weighted_sum, i32_add_right]
    · rw [if_neg hk, i32_add_left, add_assoc,
        ← i32_add_right y (i32 (row[i] * spec_history_input ghr i) + weighted_sum row ghr (i + 1) k),
        i32_add_left, i32_add_right]

theorem spec_perceptron_output_eq {s : State} {e : Nat} {b : Int} {row : List Int}
    (hb : s.bias[e]? = some b) (hrow : s.PT[e]? = some row) :
    spec_perceptron_output s e = b + weighted_sum row s.ghr_c 0 N := by
  unfold spec_perceptron_output weighted_sum
  rw [List.range_eq_range', List.getD_eq_getElem?_getD, List.getD_eq_getElem?_getD s.PT, hb, hrow]
  rfl

theorem pred_custom_eq {s : State} {pc : Nat} {b : Int} {row : List Int}
    (hb : s.bias[pc % EntryNumber]? = some b) (hrow : s.PT[pc % EntryNumber]? = some row)
    (hlen : row.length = N) :
    pred_custom s pc = some
      (if i32 (spec_perceptron_output s (pc % EntryNumber)) > 0 then TAKEN else NOTTAKEN,
       { s with
         indexPT := pc % EntryNumber
         y := i32 (spec_perceptron_output s (pc % EntryNumber))
         pred_c := if i32 (spec_perceptron_output s (pc % EntryNumber)) > 0 then TAKEN
           else NOTTAKEN }) := by
  have hloop := pred_custom_loop_eq row s.ghr_c N 0 1 b (by rw [hlen]; omega)
    (by unfold N; omega) (fun _ => rfl)
  rw [if_neg (by unfold N; omega)] at hloop
  unfold pred_custom
  simp only [hb, hrow, hloop, Option.bind_eq_bind, Option.some_bind]
  rw [spec_perceptron_output_eq hb hrow]
  rfl

/-- The reads of `pred_custom` succeed when the arrays have their declared dimensions. -/
theorem perceptron_reads {s : State} (hwf : PerceptronWF s) {e : Nat} (he : e < EntryNumber) :
    ∃ b row, s.bias[e]? = some b ∧ s.PT[e]? = some row ∧ row.length = N := by
  obtain ⟨h1, h2, h3, _⟩ := hwf
  have hb : e < s.bias.length := by rw [h1]; exact he
  have hr : e < s.PT.length := by rw [h2]; exact he
  exact ⟨s.bias[e], s.PT[e], List.getElem?_eq_getElem hb, List.getElem?_eq_getElem hr,
    h3 _ (List.getElem_mem _)⟩

theorem abs_sum_le (l : List Int) (B : Int) (h : ∀ x ∈ l, |x| ≤ B) :
    |l.sum| ≤ B * l.length := by
  induction l with
  | nil => simp
  | cons a t ih =>
    have h1 : |a| ≤ B := h a (List.mem_cons_self _ _)
    have h2 := ih (fun x hx => h x (List.mem_cons_of_mem _ hx))
    rw [List.sum_cons, List.length_cons]
    have h3 := abs_add a t.sum
    push_cast
    linarith

theorem abs_history_input (ghr i : Nat) : |spec_history_input ghr i| = 1 := by
  unfold spec_history_input
  split_ifs <;> simp

/-- With the bias and the weights of an entry in `[-128, 127]` the output fits in an
`int` by a wide margin. -/
theorem spec_perceptron_output_bounded {s : State} {e : Nat} (h : EntryInRange s e) :
    |spec_perceptron_output s e| ≤ 128 * 33 := by
  obtain ⟨⟨hb1, hb2⟩, hw⟩ := h
  simp only [MinWeight, MaxWeight] at hb1 hb2 hw
  unfold spec_perceptron_output
  have hterm : ∀ x ∈ (List.range N).map
      (fun i => (s.PT.getD e []).getD i 0 * spec_history_input s.ghr_c i), |x| ≤ 128 := by
    intro x hx
    obtain ⟨i, _, rfl⟩ := List.mem_map.mp hx
    rw [abs_mul, abs_history_input, mul_one]
    rw [List.getD_eq_getElem?_getD]
    rcases hget : (s.PT.getD e [])[i]? with _ | w
    · simp
    · have := hw w (List.mem_iff_getElem?.mpr ⟨i, hget⟩)
      simp only [Option.getD_some]
      rw [abs_le]; omega
  have h1 := abs_sum_le _ 128 hterm
  rw [List.length_map, List.length_range] at h1
  have h2 : |s.bias.getD e 0| ≤ 128 := by rw [abs_le]; omega
  have h3 := abs_add (s.bias.getD e 0)
    ((List.range N).map (fun i => (s.PT.getD e []).getD i 0 * spec_history_input s.ghr_c i)).sum
  unfold N at h1 h3 ⊢
  push_cast at h1
  linarith

theorem spec_perceptron_output_zero {s : State} {e : Nat} (hb : s.bias.getD e 0 = 0)
    (hw : ∀ i, i < N → (s.PT.getD e []).getD i 0 = 0) : spec_perceptron_output s e = 0 := by
  unfold spec_perceptron_output
  rw [hb, zero_add]
  apply List.sum_eq_zero
  intro x hx
  obtain ⟨i, hi, rfl⟩ := List.mem_map.mp hx
  rw [hw i (List.mem_range.mp hi), zero_mul]

/-! ## Reachable states: lemmas -/

theorem replicate_le {n v b : Nat} (h : v ≤ b) : ∀ c ∈ List.replicate n v, c ≤ b := by
  intro c hc
  rw [(List.mem_replicate.mp hc).2]
  exact h

theorem boot_perceptronWF (t : Int) (gb lb pb : Nat) : PerceptronWF (boot t gb lb pb) := by
  have h0 : (0 : Nat) < EntryNumber := by decide
  refine ⟨List.length_replicate _ _, List.length_replicate _ _, ?_, h0⟩
  intro row hrow
  rw [(List.mem_replicate.mp hrow).2]
  exact List.length_replicate _ _

theorem init_custom_perceptronWF {s : State} (h : s.indexPT < EntryNumber) :
    PerceptronWF (init_custom s) := by
  refine ⟨List.length_replicate _ _, List.length_replicate _ _, ?_, h⟩
  intro row hrow
  rw [(List.mem_replicate.mp hrow).2]
  exact List.length_replicate _ _

theorem init_tournament_eq {s : State} (hp : s.pcIndexBits < 32) (hl : s.lhistoryBits < 32) :
    init_tournament s = some
      { s with
        ghr := 0
        gpht := List.replicate s.gsize WN
        lhrSize := 2 ^ s.pcIndexBits
        lhr := List.replicate (2 ^ s.pcIndexBits) NOTTAKEN
        lphtSize := 2 ^ s.lhistoryBits
        lpht := List.replicate (2 ^ s.lhistoryBits) WN
        cpht := List.replicate s.gsize WN } := by
  unfold init_tournament init_gshare
  simp only [one_shl_eq hp, one_shl_eq hl, Option.bind_eq_bind, Option.some_bind]
  rfl

theorem fresh_tables_wf {s : State} (hg : s.ghistoryBits < 32) (hl : s.lhistoryBits < 32)
    (hp : s.pcIndexBits < 32) (h1 : s.gsize = 2 ^ s.ghistoryBits)
    (h2 : s.lsb = u32 (2 ^ s.ghistoryBits + 2 ^ 32 - 1))
    (h3 : s.lhrSize = 2 ^ s.pcIndexBits) (h4 : s.lphtSize = 2 ^ s.lhistoryBits)
    (h5 : s.gpht = List.replicate (2 ^ s.ghistoryBits) WN)
    (h6 : s.cpht = List.replicate (2 ^ s.ghistoryBits) WN)
    (h7 : s.lhr = List.replicate (2 ^ s.pcIndexBits) NOTTAKEN)
    (h8 : s.lpht = List.replicate (2 ^ s.lhistoryBits) WN) (h9 : s.ghr = 0) :
    TournamentWF s ∧ CountersOK s := by
  refine ⟨⟨hg, hl, hp, h1, ?_, h3, h4, ?_, ?_, ?_, ?_, ?_, ?_⟩, ?_, ?_, ?_⟩
  · rw [h2, u32_pow_pred hg]
  · rw [h5, List.length_replicate]
  · rw [h6, List.length_replicate]
  · rw [h7, List.length_replicate]
  · rw [h8, List.length_replicate]
  · rw [h9]; exact Nat.two_pow_pos _
  · intro h hh
    rw [h7] at hh
    rw [(List.mem_replicate.mp hh).2]
    exact Nat.two_pow_pos _
  · rw [h5]; exact replicate_le (by decide)
  · rw [h8]; exact replicate_le (by decide)
  · rw [h6]; exact replicate_le (by decide)

/-- Totality: `init_predictor` succeeds for bit widths in `0..31` and establishes the invariant. -/
theorem init_predictor_inv_of {s : State} (hg : s.ghistoryBits < 32)
    (hl : s.lhistoryBits < 32) (hp : s.pcIndexBits < 32) (hP : PerceptronWF s)
    (hC : CountersOK s) :
    ∃ s0, init_predictor s = some s0 ∧ Reachable_inv s0 ∧ s0.bpType = s.bpType := by
  unfold init_predictor
  simp only [one_shl_eq hg, Option.bind_eq_bind, Option.some_bind]
  split_ifs with h1 h2 h3
  · rw [init_tournament_eq]
    rotate_left
    · exact hp
    · exact hl
    refine ⟨_, rfl, ⟨init_custom_perceptronWF hP.2.2.2, ?_⟩, rfl⟩
    suffices h : TournamentWF _ ∧ CountersOK _ from ⟨h.2, fun _ => h.1⟩
    apply fresh_tables_wf <;> first | exact hg | exact hl | exact hp | rfl
  · rw [init_tournament_eq]
    rotate_left
    · exact hp
    · exact hl
    refine ⟨_, rfl, ⟨init_custom_perceptronWF hP.2.2.2, ?_⟩, rfl⟩
    suffices h : TournamentWF _ ∧ CountersOK _ from ⟨h.2, fun _ => h.1⟩
    apply fresh_tables_wf <;> first | exact hg | exact hl | exact hp | rfl
  · refine ⟨_, rfl, ⟨init_custom_perceptronWF hP.2.2.2, hC, ?_⟩, rfl⟩
    intro h
    rcases h with h | h
    · exact absurd h h1
    · exact absurd h h2
  · refine ⟨_, rfl, ⟨hP, hC, ?_⟩, rfl⟩
    intro h
    rcases h with h | h
    · exact absurd h h1
    · exact absurd h h2

theorem init_predictor_inv (t : Int) {gb lb pb : Nat} (hg : gb < 32) (hl : lb < 32)
    (hp : pb < 32) :
    ∃ s0, init_predictor (boot t gb lb pb) = some s0 ∧ Reachable_inv s0 ∧ s0.bpType = t := by
  have hempty : ∀ c ∈ ([] : List Nat), c ≤ 3 := fun c hc => absurd hc (List.not_mem_nil c)
  exact @init_predictor_inv_of (boot t gb lb pb) hg hl hp (boot_perceptronWF t gb lb pb)
    ⟨hempty, hempty, hempty⟩

theorem chooser_next_le {c : Nat} (g l outcome : Nat) (h : c ≤ 3) :
    chooser_next c g l outcome ≤ 3 := by
  have hu : u32 (c + 1) ≤ c + 1 := Nat.mod_le _ _
  unfold chooser_next
  split_ifs <;> omega

theorem tournamentWF_update {s s1 : State} (hwf : TournamentWF s)
    (h1 : s1.ghistoryBits = s.ghistoryBits) (h2 : s1.lhistoryBits = s.lhistoryBits)
    (h3 : s1.pcIndexBits = s.pcIndexBits) (h4 : s1.gsize = s.gsize) (h5 : s1.lsb = s.lsb)
    (h6 : s1.lhrSize = s.lhrSize) (h7 : s1.lphtSize = s.lphtSize)
    (h8 : s1.gpht.length = s.gpht.length) (h9 : s1.cpht.length = s.cpht.length)
    (h10 : s1.lhr.length = s.lhr.length) (h11 : s1.lpht.length = s.lpht.length)
    (h12 : s1.ghr < 2 ^ s.ghistoryBits) (h13 : ∀ h ∈ s1.lhr, h < 2 ^ s.lhistoryBits) :
    TournamentWF s1 := by
  obtain ⟨a1, a2, a3, a4, a5, a6, a7, a8, a9, a10, a11, _, _⟩ := hwf
  unfold TournamentWF
  rw [h1, h2, h3, h4, h5, h6, h7, h8, h9, h10, h11]
  exact ⟨a1, a2, a3, a4, a5, a6, a7, a8, a9, a10, a11, h12, h13⟩

/-- Totality: `train_gshare` succeeds on a well-formed state and keeps it well-formed. -/
theorem train_gshare_inv {s : State} (pc outcome : Nat) (hwf : TournamentWF s)
    (hcnt : CountersOK s) :
    ∃ s1, train_gshare s pc outcome = some s1 ∧ TournamentWF s1 ∧ CountersOK s1
      ∧ (PerceptronWF s → PerceptronWF s1) ∧ s1.bpType = s.bpType := by
  have hlsb : s.lsb = 2 ^ s.ghistoryBits - 1 := hwf.2.2.2.2.1
  have hlen : s.gpht.length = 2 ^ s.ghistoryBits := hwf.2.2.2.2.2.2.2.1
  have hlt : (s.ghr ^^^ pc) &&& s.lsb < s.gpht.length := by
    rw [hlsb, hlen]; exact and_pow_pred_lt _ _
  have hget := List.getElem?_eq_getElem hlt
  have hc : s.gpht[(s.ghr ^^^ pc) &&& s.lsb] ≤ 3 := hcnt.1 _ (List.getElem_mem _)
  refine ⟨_, train_gshare_eq outcome hget, ?_, ?_, fun h => h, rfl⟩
  · refine tournamentWF_update hwf rfl rfl rfl rfl rfl rfl rfl (List.length_set _ _ _) rfl rfl
      rfl ?_ hwf.2.2.2.2.2.2.2.2.2.2.2.2
    show (u32 (s.ghr <<< 1) ||| outcome) &&& s.lsb < _
    rw [hlsb]; exact and_pow_pred_lt _ _
  · exact ⟨forall_mem_set_le hcnt.1 (counter_next_le _ _ hc), hcnt.2.1, hcnt.2.2⟩

/-- Totality: `train_tournament` succeeds on a well-formed state and keeps it well-formed. -/
theorem train_tournament_inv {s : State} (pc outcome : Nat) (hwf : TournamentWF s)
    (hcnt : CountersOK s) :
    ∃ s1, train_tournament s pc outcome = some s1 ∧ TournamentWF s1 ∧ CountersOK s1
      ∧ (PerceptronWF s → PerceptronWF s1) ∧ s1.bpType = s.bpType := by
  obtain ⟨c, g0, L, l0, hc, hg0, hL, hl0, _, hidx, hmaskL, hmaskP⟩ := tournament_reads hwf pc
  have hg := pred_global_eq pc hidx hg0
  rw [← hmaskL] at hL
  have hl := pred_local_eq hL hl0
  have hc3 : c ≤ 3 := hcnt.2.2 c (List.mem_iff_getElem?.mpr ⟨_, hc⟩)
  have hg3 : g0 ≤ 3 := hcnt.1 g0 (List.mem_iff_getElem?.mpr ⟨_, hg0⟩)
  have hl3 : l0 ≤ 3 := hcnt.2.1 l0 (List.mem_iff_getElem?.mpr ⟨_, hl0⟩)
  have hlsb : s.lsb = 2 ^ s.ghistoryBits - 1 := hwf.2.2.2.2.1
  refine ⟨_, train_tournament_eq outcome hg hl hc hg0 hL hl0, ?_, ?_, fun h => h, rfl⟩
  · refine tournamentWF_update hwf rfl rfl rfl rfl rfl rfl rfl (List.length_set _ _ _)
      (List.length_set _ _ _) (List.length_set _ _ _) (List.length_set _ _ _) ?_ ?_
    · show (u32 (s.ghr <<< 1) ||| outcome) &&& s.lsb < _
      rw [hlsb]; exact and_pow_pred_lt _ _
    · refine forall_mem_set_lt hwf.2.2.2.2.2.2.2.2.2.2.2.2 ?_
      rw [hmaskP]; exact and_pow_pred_lt _ _
  · exact ⟨forall_mem_set_le hcnt.1 (counter_next_le _ _ hg3),
      forall_mem_set_le hcnt.2.1 (counter_next_le _ _ hl3),
      forall_mem_set_le hcnt.2.2 (chooser_next_le _ _ _ hc3)⟩

theorem train_custom_loop_some (ghr_c outcome : Nat) :
    ∀ (k i mask : Nat) (row : List Int), i + k ≤ row.length →
      ∃ row1, train_custom_loop ghr_c outcome k i mask row = some row1
        ∧ row1.length = row.length := by
  intro k
  induction k with
  | zero => intro i mask row _; exact ⟨row, rfl, rfl⟩
  | succ k ih =>
    intro i mask row h
    have hi : i < row.length := by omega
    unfold train_custom_loop
    simp only [List.getElem?_eq_getElem hi, Option.bind_eq_bind, Option.some_bind]
    have key : ∀ row1 : List Int, row1.length = row.length →
        ∃ r, train_custom_loop ghr_c outcome k (i + 1) (u32 (mask <<< 1)) row1 = some r
          ∧ r.length = row.length := by
      intro row1 hl
      obtain ⟨r, h1, h2⟩ := ih (i + 1) (u32 (mask <<< 1)) row1 (by omega)
      exact ⟨r, h1, h2.trans hl⟩
    split_ifs <;> first | exact key _ (List.length_set _ _ _) | exact key _ rfl

/-- Totality: `train_custom` succeeds when the arrays have their declared dimensions, keeps the
dimensions, and touches `bias`, `PT` and `ghr_c` only. -/
theorem train_custom_some {s : State} (pc outcome : Nat) (hP : PerceptronWF s) :
    ∃ bias1 PT1,
      train_custom s pc outcome = some
        { s with bias := bias1, PT := PT1, ghr_c := u32 (s.ghr_c <<< 1) ||| outcome }
      ∧ bias1.length = s.bias.length ∧ PT1.length = s.PT.length
      ∧ ∀ row ∈ PT1, row.length = N := by
  obtain ⟨b, row, hb, hrow, hlen⟩ := perceptron_reads hP hP.2.2.2
  obtain ⟨row1, hloop, hlen1⟩ := train_custom_loop_some s.ghr_c outcome N 0 1 row
    (by rw [hlen]; omega)
  unfold train_custom
  by_cases hgate : (100 * s.y ≤ theta100 ∧ 100 * s.y ≥ (-1) * theta100) ∨ s.pred_c ≠ outcome
  · simp only [if_pos hgate, hb, hrow, hloop, Option.bind_eq_bind, Option.some_bind]
    refine ⟨_, _, rfl, ?_, List.length_set _ _ _, ?_⟩
    · split_ifs <;> simp
    · intro r hr
      rcases List.mem_or_eq_of_mem_set hr with h | h
      · exact hP.2.2.1 r h
      · rw [h, hlen1, hlen]
  · simp only [if_neg hgate, Option.bind_eq_bind, Option.some_bind]
    exact ⟨s.bias, s.PT, rfl, rfl, rfl, hP.2.2.1⟩

theorem train_custom_inv {s : State} (pc outcome : Nat) (hP : PerceptronWF s) :
    ∃ s1, train_custom s pc outcome = some s1 ∧ PerceptronWF s1 ∧ s1.bpType = s.bpType
      ∧ (CountersOK s → CountersOK s1) ∧ (TournamentWF s → TournamentWF s1) := by
  obtain ⟨bias1, PT1, h, h1, h2, h3⟩ := train_custom_some pc outcome hP
  refine ⟨_, h, ⟨?_, ?_, h3, hP.2.2.2⟩, rfl, fun hc => hc, fun hw => hw⟩
  · exact h1.trans hP.1
  · exact h2.trans hP.2.1

theorem pred_gshare_some {s : State} (pc : Nat) (hwf : TournamentWF s) :
    ∃ r, pred_gshare s pc = some r := by
  have hlsb : s.lsb = 2 ^ s.ghistoryBits - 1 := hwf.2.2.2.2.1
  have hlen : s.gpht.length = 2 ^ s.ghistoryBits := hwf.2.2.2.2.2.2.2.1
  have hlt : (s.ghr ^^^ pc) &&& s.lsb < s.gpht.length := by
    rw [hlsb, hlen]; exact and_pow_pred_lt _ _
  unfold pred_gshare
  simp only [List.getElem?_eq_getElem hlt, Option.bind_eq_bind, Option.some_bind]
  exact ⟨_, rfl⟩

theorem pred_tournament_some {s : State} (pc : Nat) (hwf : TournamentWF s) :
    ∃ r, pred_tournament s pc = some r := by
  obtain ⟨c, g0, L, l0, hc, hg0, hL, hl0, _, hidx, hmaskL, _⟩ := tournament_reads hwf pc
  have hg := pred_global_eq pc hidx hg0
  rw [← hmaskL] at hL
  have hl := pred_local_eq hL hl0
  unfold pred_tournament
  simp only [hc, Option.bind_eq_bind, Option.some_bind]
  split_ifs
  · exact ⟨_, hg⟩
  · exact ⟨_, hl⟩

/-- Totality: `make_prediction` succeeds on every state that satisfies the invariant and
preserves the invariant. -/
theorem make_prediction_inv {s : State} (pc : Nat) (h : Reachable_inv s) :
    ∃ r s1, make_prediction s pc = some (r, s1) ∧ Reachable_inv s1
      ∧ s1.bpType = s.bpType := by
  obtain ⟨hP, hC, hT⟩ := h
  unfold make_prediction
  split_ifs with h0 h1 h2 h3
  · exact ⟨_, _, rfl, ⟨hP, hC, hT⟩, rfl⟩
  · obtain ⟨r, hr⟩ := pred_gshare_some pc (hT (Or.inl h1))
    rw [hr]
    exact ⟨_, _, rfl, ⟨hP, hC, hT⟩, rfl⟩
  · obtain ⟨r, hr⟩ := pred_tournament_some pc (hT (Or.inr h2))
    rw [hr]
    exact ⟨_, _, rfl, ⟨hP, hC, hT⟩, rfl⟩
  · have he : pc % EntryNumber < EntryNumber := Nat.mod_lt _ (by decide)
    obtain ⟨b, row, hb, hrow, hlen⟩ := perceptron_reads hP he
    exact ⟨_, _, pred_custom_eq hb hrow hlen, ⟨⟨hP.1, hP.2.1, hP.2.2.1, he⟩, hC, hT⟩, rfl⟩
  · exact ⟨_, _, rfl, ⟨hP, hC, hT⟩, rfl⟩

/-- Totality: `train_predictor` succeeds on every state that satisfies the invariant and
preserves the invariant. -/
theorem train_predictor_inv {s : State} (pc outcome : Nat) (h : Reachable_inv s) :
    ∃ s1, train_predictor s pc outcome = some s1 ∧ Reachable_inv s1
      ∧ s1.bpType = s.bpType := by
  obtain ⟨hP, hC, hT⟩ := h
  unfold train_predictor
  split_ifs with h1 h2 h3
  · obtain ⟨s1, e1, w1, c1, p1, t1⟩ := train_gshare_inv pc outcome (hT (Or.inl h1)) hC
    obtain ⟨s2, e2, w2, c2, p2, t2⟩ := train_tournament_inv pc outcome w1 c1
    obtain ⟨s3, e3, p3, t3, c3, w3⟩ := train_custom_inv pc outcome (p2 (p1 hP))
    simp only [e1, e2, e3, Option.bind_eq_bind, Option.some_bind]
    exact ⟨_, rfl, ⟨p3, c3 c2, fun _ => w3 w2⟩, by rw [t3, t2, t1]⟩
  · obtain ⟨s2, e2, w2, c2, p2, t2⟩ := train_tournament_inv pc outcome (hT (Or.inr h2)) hC
    obtain ⟨s3, e3, p3, t3, c3, w3⟩ := train_custom_inv pc outcome (p2 hP)
    simp only [e2, e3, Option.bind_eq_bind, Option.some_bind]
    exact ⟨_, rfl, ⟨p3, c3 c2, fun _ => w3 w2⟩, by rw [t3, t2]⟩
  · obtain ⟨s3, e3, p3, t3, c3, w3⟩ := train_custom_inv pc outcome hP
    exact ⟨_, e3, ⟨p3, c3 hC, fun h => w3 (hT (by rw [← t3]; exact h))⟩, t3⟩
  · exact ⟨_, rfl, ⟨hP, hC, hT⟩, rfl⟩

theorem step_inv {s : State} (c : Call) (h : Reachable_inv s) :
    ∃ s1, step s c = some s1 ∧ Reachable_inv s1 := by
  cases c with
  | predict pc =>
    obtain ⟨r, s1, e, i1, _⟩ := make_prediction_inv pc h
    exact ⟨s1, by simp [step, e], i1⟩
  | train pc outcome =>
    obtain ⟨s1, e, i1, _⟩ := train_predictor_inv pc outcome h
    exact ⟨s1, e, i1⟩

theorem run_inv (calls : List Call) :
    ∀ s : State, Reachable_inv s → ∃ s1, run s calls = some s1 ∧ Reachable_inv s1 := by
  induction calls with
  | nil => intro s h; exact ⟨s, rfl, h⟩
  | cons c cs ih =>
    intro s h
    obtain ⟨s1, e, i1⟩ := step_inv c h
    obtain ⟨s2, e2, i2⟩ := ih s1 i1
    exact ⟨s2, by simp [run, e, e2], i2⟩

/-! ## Dispatcher: lemmas -/

theorem pred_custom_parts {s s1 : State} {pc r : Nat} (h : pred_custom s pc = some (r, s1)) :
    ∃ b row y, s.bias[pc % EntryNumber]? = some b ∧ s.PT[pc % EntryNumber]? = some row
      ∧ pred_custom_loop row s.ghr_c N 0 1 b = some y
      ∧ r = (if y > 0 then TAKEN else NOTTAKEN)
      ∧ s1 = { s with indexPT := pc % EntryNumber, y := y, pred_c := r } := by
  unfold pred_custom at h
  rcases hb : s.bias[pc % EntryNumber]? with _ | b
  · simp [hb] at h
  · rcases hrow : s.PT[pc % EntryNumber]? with _ | row
    · simp [hb, hrow] at h
    · rcases hy : pred_custom_loop row s.ghr_c N 0 1 b with _ | y
      · simp [hb, hrow, hy] at h
      · simp only [hb, hrow, hy, Option.bind_eq_bind, Option.some_bind, Option.pure_def,
          Option.some.injEq, Prod.mk.injEq] at h
        obtain ⟨h1, h2⟩ := h
        refine ⟨b, row, y, rfl, rfl, hy, h1.symm, ?_⟩
        rw [← h2, ← h1]

theorem make_prediction_cases {s s1 : State} {pc r : Nat}
    (h : make_prediction s pc = some (r, s1)) :
    (s.bpType ≠ CUSTOM ∧ s1 = s) ∨ (s.bpType = CUSTOM ∧ pred_custom s pc = some (r, s1)) := by
  unfold make_prediction at h
  split_ifs at h with h0 h1 h2 h3
  · left
    simp only [Option.some.injEq, Prod.mk.injEq] at h
    exact ⟨by rw [h0]; decide, h.2.symm⟩
  · left
    rcases hr : pred_gshare s pc with _ | v
    · simp [hr] at h
    · simp only [hr, Option.map_some', Option.some.injEq, Prod.mk.injEq] at h
      exact ⟨by rw [h1]; decide, h.2.symm⟩
  · left
    rcases hr : pred_tournament s pc with _ | v
    · simp [hr] at h
    · simp only [hr, Option.map_some', Option.some.injEq, Prod.mk.injEq] at h
      exact ⟨by rw [h2]; decide, h.2.symm⟩
  · right
    exact ⟨h3, h⟩
  · left
    simp only [Option.some.injEq, Prod.mk.injEq] at h
    exact ⟨h3, h.2.symm⟩

/-! ## Perceptron training: lemmas -/

/-- The weight loop of `train_custom` replaces the weights of its iterations by
`weight_next` and leaves the other cells of the row alone. -/
theorem train_custom_loop_eq (ghr_c outcome : Nat) :
    ∀ (k i mask : Nat) (row : List Int), i + k ≤ row.length → i + k ≤ 32 →
      (0 < k → mask = 2 ^ i) →
      ∃ row1, train_custom_loop ghr_c outcome k i mask row = some row1
        ∧ row1.length = row.length
        ∧ ∀ j, row1[j]? = if i ≤ j ∧ j < i + k
            then (row[j]?).map (weight_next ghr_c outcome j) else row[j]? := by
  intro k
  induction k with
  | zero =>
    intro i mask row _ _ _
    refine ⟨row, rfl, rfl, ?_⟩
    intro j
    have : ¬ (i ≤ j ∧ j < i + 0) := by omega
    rw [if_neg this]
  | succ k ih =>
    intro i mask row h1 h2 hm
    have hmask := hm (Nat.succ_pos k)
    subst hmask
    have hi : i < row.length := by omega
    have hget := List.getElem?_eq_getElem hi
    have hrow : (if row[i] > MinWeight ∧ row[i] < MaxWeight then
        row.set i (row[i] + (if (ghr_c &&& 2 ^ i = 0 ∧ outcome = 0)
          ∨ (ghr_c &&& 2 ^ i ≠ 0 ∧ outcome = 1) then 1 else -1)) else row)
        = row.set i (weight_next ghr_c outcome i row[i]) := by
      unfold weight_next
      by_cases hc : row[i] > MinWeight ∧ row[i] < MaxWeight
      · rw [if_pos hc, if_pos hc]
      · rw [if_neg hc, if_neg hc, list_set_same hget]
    obtain ⟨row1, e1, l1, g1⟩ := ih (i + 1) (u32 (2 ^ i <<< 1))
      (row.set i (weight_next ghr_c outcome i row[i]))
      (by rw [List.length_set]; omega) (by omega) (mask_shift h2)
    refine ⟨row1, ?_, by rw [l1, List.length_set], ?_⟩
    · unfold train_custom_loop
      simp only [hget, Option.bind_eq_bind, Option.some_bind]
      rw [hrow]
      exact e1
    · intro j
      rw [g1 j, List.getElem?_set]
      by_cases hj : i = j
      · subst hj
        have c1 : ¬ (i + 1 ≤ i ∧ i < i + 1 + k) := by omega
        have c2 : i ≤ i ∧ i < i + (k + 1) := by omega
        rw [if_neg c1, if_pos c2, if_pos rfl, if_pos hi, hget]
        rfl
      · rw [if_neg hj]
        by_cases c : i + 1 ≤ j ∧ j < i + 1 + k
        · have c2 : i ≤ j ∧ j < i + (k + 1) := by omega
          rw [if_pos c, if_pos c2]
        · have c2 : ¬ (i ≤ j ∧ j < i + (k + 1)) := by omega
          rw [if_neg c, if_neg c2]

/-- The call `train_custom` when the training gate is open. -/
theorem train_custom_fire {s : State} {b : Int} {row : List Int} (pc : Nat) {outcome : Nat}
    (hgate : (100 * s.y ≤ theta100 ∧ 100 * s.y ≥ (-1) * theta100) ∨ s.pred_c ≠ outcome)
    (hb : s.bias[s.indexPT]? = some b) (hrow : s.PT[s.indexPT]? = some row)
    (hlen : N ≤ row.length) :
    ∃ row1,
      train_custom s pc outcome = some
        { s with
          bias := s.bias.set s.indexPT (bias_next outcome b)
          PT := s.PT.set s.indexPT row1
          ghr_c := u32 (s.ghr_c <<< 1) ||| outcome }
      ∧ row1.length = row.length
      ∧ ∀ j, row1[j]? = if j < N
          then (row[j]?).map (weight_next s.ghr_c outcome j) else row[j]? := by
  obtain ⟨row1, e1, l1, g1⟩ := train_custom_loop_eq s.ghr_c outcome N 0 1 row
    (by omega) (by unfold N; omega) (fun _ => rfl)
  have hbias : (if b < MaxWeight ∧ b > MinWeight then
      (if outcome = 1 then s.bias.set s.indexPT (b + 1) else s.bias.set s.indexPT (b + -1))
      else s.bias) = s.bias.set s.indexPT (bias_next outcome b) := by
    unfold bias_next
    by_cases hc : b < MaxWeight ∧ b > MinWeight
    · rw [if_pos hc, if_pos hc]
      split_ifs <;> rfl
    · rw [if_neg hc, if_neg hc, list_set_same hb]
  refine ⟨row1, ?_, l1, ?_⟩
  · unfold train_custom
    simp only [if_pos hgate, hb, hrow, e1, Option.bind_eq_bind, Option.some_bind,
      Option.pure_def]
    rw [hbias]
  · intro j
    rw [g1 j]
    by_cases hj : j < N
    · rw [if_pos hj, if_pos (by omega)]
    · rw [if_neg hj, if_neg (by omega)]

/-- The call `train_custom` when the training gate is closed. -/
theorem train_custom_skip {s : State} (pc : Nat) {outcome : Nat}
    (hgate : ¬ ((100 * s.y ≤ theta100 ∧ 100 * s.y ≥ (-1) * theta100) ∨ s.pred_c ≠ outcome)) :
    train_custom s pc outcome = some { s with ghr_c := u32 (s.ghr_c <<< 1) ||| outcome } := by
  unfold train_custom
  simp only [if_neg hgate, Option.bind_eq_bind, Option.some_bind, Option.pure_def]

/-- The gate of `train_custom` in integers: `|y| <= theta` is `-75 <= y <= 75`. -/
theorem gate_iff (y : Int) :
    (100 * y ≤ theta100 ∧ 100 * y ≥ (-1) * theta100) ↔ (-75 ≤ y ∧ y ≤ 75) := by
  have : theta100 = 7576 := by decide
  rw [this]
  omega

theorem u32_or {x o : Nat} (ho : o < 2 ^ 32) : u32 (x ||| o) = u32 x ||| o := by
  apply Nat.eq_of_testBit_eq
  intro i
  simp only [u32, Nat.testBit_mod_two_pow, Nat.testBit_or]
  by_cases hi : i < 32
  · simp [hi]
  · have h1 : 2 ^ 32 ≤ 2 ^ i := Nat.pow_le_pow_right (by norm_num) (by omega)
    have h2 : o.testBit i = false := Nat.testBit_lt_two_pow (by omega)
    simp [hi, h2]

theorem bias_next_eq {outcome : Nat} (ho : outcome = NOTTAKEN ∨ outcome = TAKEN) (b : Int) :
    bias_next outcome b = sticky_step b (spec_bias_step outcome) := by
  unfold bias_next sticky_step spec_bias_step
  rcases ho with ho | ho <;> subst ho <;>
    simp only [NOTTAKEN, TAKEN, MinWeight, MaxWeight] <;> split_ifs <;> omega

theorem weight_step_eq {outcome : Nat} (ho : outcome = NOTTAKEN ∨ outcome = TAKEN)
    (ghr i : Nat) :
    (if (ghr &&& 2 ^ i = 0 ∧ outcome = 0) ∨ (ghr &&& 2 ^ i ≠ 0 ∧ outcome = 1)
      then (1 : Int) else -1) = spec_weight_step ghr outcome i := by
  have h := and_two_pow_eq_zero ghr i
  unfold spec_weight_step
  cases hb : ghr.testBit i
  · have hz : ghr &&& 2 ^ i = 0 := h.mpr hb
    rcases ho with ho | ho <;> subst ho <;> simp [hz, NOTTAKEN, TAKEN]
  · have hz : ¬ (ghr &&& 2 ^ i = 0) := fun h0 => by rw [h.mp h0] at hb; cases hb
    rcases ho with ho | ho <;> subst ho <;> simp [hz, NOTTAKEN, TAKEN]

theorem weight_next_eq {outcome : Nat} (ho : outcome = NOTTAKEN ∨ outcome = TAKEN)
    (ghr i : Nat) (w : Int) :
    weight_next ghr outcome i w = sticky_step w (spec_weight_step ghr outcome i) := by
  unfold weight_next sticky_step
  rw [weight_step_eq ho]

theorem sticky_step_range {w d : Int} (hw : MinWeight ≤ w ∧ w ≤ MaxWeight)
    (hd : d = 1 ∨ d = -1) :
    MinWeight ≤ sticky_step w d ∧ sticky_step w d ≤ MaxWeight := by
  unfold sticky_step
  simp only [MinWeight, MaxWeight] at hw ⊢
  split_ifs with h <;> omega

theorem spec_bias_step_cases (outcome : Nat) :
    spec_bias_step outcome = 1 ∨ spec_bias_step outcome = -1 := by
  unfold spec_bias_step; split_ifs <;> simp

theorem spec_weight_step_cases (ghr outcome i : Nat) :
    spec_weight_step ghr outcome i = 1 ∨ spec_weight_step ghr outcome i = -1 := by
  unfold spec_weight_step; split_ifs <;> simp

theorem bias_next_range (outcome : Nat) {b : Int} (hb : MinWeight ≤ b ∧ b ≤ MaxWeight) :
    MinWeight ≤ bias_next outcome b ∧ bias_next outcome b ≤ MaxWeight := by
  unfold bias_next
  simp only [MinWeight, MaxWeight] at hb ⊢
  split_ifs <;> omega

theorem weight_next_range (ghr outcome i : Nat) {w : Int}
    (hw : MinWeight ≤ w ∧ w ≤ MaxWeight) :
    MinWeight ≤ weight_next ghr outcome i w ∧ weight_next ghr outcome i w ≤ MaxWeight := by
  unfold weight_next
  simp only [MinWeight, MaxWeight] at hw ⊢
  split_ifs <;> omega

/-- Totality and range: `train_custom` succeeds when the arrays have their declared
dimensions and keeps every bias and weight in `[MinWeight, MaxWeight]`. -/
theorem train_custom_range {s : State} (pc outcome : Nat) (hwf : PerceptronWF s)
    (hr : WeightsInRange s) :
    ∃ s1, train_custom s pc outcome = some s1 ∧ PerceptronWF s1 ∧ WeightsInRange s1 := by
  by_cases hgate : (100 * s.y ≤ theta100 ∧ 100 * s.y ≥ (-1) * theta100) ∨ s.pred_c ≠ outcome
  · obtain ⟨b, row, hb, hrow, hlen⟩ := perceptron_reads hwf hwf.2.2.2
    obtain ⟨row1, e1, l1, g1⟩ := train_custom_fire pc hgate hb hrow (by omega)
    have hbr := hr.1 b (List.mem_iff_getElem?.mpr ⟨_, hb⟩)
    have hrr := hr.2 row (List.mem_iff_getElem?.mpr ⟨_, hrow⟩)
    refine ⟨_, e1, ⟨?_, ?_, ?_, hwf.2.2.2⟩, ?_, ?_⟩
    · exact (List.length_set _ _ _).trans hwf.1
    · exact (List.length_set _ _ _).trans hwf.2.1
    · intro r hr1
      rcases List.mem_or_eq_of_mem_set hr1 with h | h
      · exact hwf.2.2.1 r h
      · rw [h, l1, hlen]
    · intro v hv
      rcases List.mem_or_eq_of_mem_set hv with h | h
      · exact hr.1 v h
      · rw [h]; exact bias_next_range outcome hbr
    · intro r hr1 w hw
      rcases List.mem_or_eq_of_mem_set hr1 with h | h
      · exact hr.2 r h w hw
      · subst h
        obtain ⟨j, hj⟩ := List.mem_iff_getElem?.mp hw
        rw [g1 j] at hj
        by_cases hjn : j < N
        · rw [if_pos hjn] at hj
          rcases hw0 : row[j]? with _ | w0
          · rw [hw0] at hj; cases hj
          · rw [hw0] at hj
            simp only [Option.map_some', Option.some.injEq] at hj
            rw [← hj]
            exact weight_next_range _ _ _ (hrr w0 (List.mem_iff_getElem?.mpr ⟨_, hw0⟩))
        · rw [if_neg hjn] at hj
          exact hrr w (List.mem_iff_getElem?.mpr ⟨_, hj⟩)
  · exact ⟨_, train_custom_skip pc hgate, hwf, hr⟩

theorem pred_custom_range {s : State} (pc : Nat) (hwf : PerceptronWF s)
    (hr : WeightsInRange s) :
    ∃ r s1, pred_custom s pc = some (r, s1) ∧ PerceptronWF s1 ∧ WeightsInRange s1 := by
  have he : pc % EntryNumber < EntryNumber := Nat.mod_lt _ (by decide)
  obtain ⟨b, row, hb, hrow, hlen⟩ := perceptron_reads hwf he
  exact ⟨_, _, pred_custom_eq hb hrow hlen, ⟨hwf.1, hwf.2.1, hwf.2.2.1, he⟩, hr⟩

theorem run_custom_range (calls : List Call) :
    ∀ s : State, PerceptronWF s → WeightsInRange s →
      ∃ s1, run_custom s calls = some s1 ∧ PerceptronWF s1 ∧ WeightsInRange s1 := by
  induction calls with
  | nil => intro s h1 h2; exact ⟨s, rfl, h1, h2⟩
  | cons c cs ih =>
    intro s h1 h2
    cases c with
    | predict pc =>
      obtain ⟨r, s1, e, w1, r1⟩ := pred_custom_range pc h1 h2
      obtain ⟨s2, e2, w2, r2⟩ := ih s1 w1 r1
      exact ⟨s2, by simp [run_custom, step_custom, e, e2], w2, r2⟩
    | train pc outcome =>
      obtain ⟨s1, e, w1, r1⟩ := train_custom_range pc outcome h1 h2
      obtain ⟨s2, e2, w2, r2⟩ := ih s1 w1 r1
      exact ⟨s2, by simp [run_custom, step_custom, e, e2], w2, r2⟩

theorem init_custom_range (s : State) : WeightsInRange (init_custom s) := by
  constructor
  · intro b hb
    rw [(List.mem_replicate.mp hb).2]
    decide
  · intro row hrow w hw
    rw [(List.mem_replicate.mp hrow).2] at hw
    rw [(List.mem_replicate.mp hw).2]
    decide

/-! ## Perceptron rounds: lemmas -/

theorem sameConfig_refl (s : State) : SameConfig s s :=
  ⟨rfl, rfl, rfl, rfl, fun _ => ⟨rfl, rfl⟩⟩

theorem sameConfig_trans {s s1 s2 : State} (h1 : SameConfig s s1) (h2 : SameConfig s1 s2) :
    SameConfig s s2 := by
  obtain ⟨a1, a2, a3, a4, a5⟩ := h1
  obtain ⟨b1, b2, b3, b4, b5⟩ := h2
  refine ⟨b1.trans a1, b2.trans a2, b3.trans a3, b4.trans a4, ?_⟩
  intro h
  have h5 := a5 h
  have h6 := b5 (by rw [a4]; exact h)
  exact ⟨h6.1.trans h5.1, h6.2.trans h5.2⟩

theorem train_gshare_config {s s1 : State} {pc outcome : Nat}
    (h : train_gshare s pc outcome = some s1) :
    s1.ghistoryBits = s.ghistoryBits ∧ s1.lhistoryBits = s.lhistoryBits
    ∧ s1.pcIndexBits = s.pcIndexBits ∧ s1.bpType = s.bpType := by
  unfold train_gshare at h
  rcases hc : counter_update (2 ^ 8) s.gpht ((s.ghr ^^^ pc) &&& s.lsb) outcome with _ | g
  · simp only [hc, Option.bind_eq_bind, Option.some_bind, Option.none_bind] at h
    exact absurd h (by simp)
  · simp only [hc, Option.bind_eq_bind, Option.some_bind, Option.pure_def,
      Option.some.injEq] at h
    subst h
    exact ⟨rfl, rfl, rfl, rfl⟩

theorem train_tournament_config {s s1 : State} {pc outcome : Nat}
    (h : train_tournament s pc outcome = some s1) :
    s1.ghistoryBits = s.ghistoryBits ∧ s1.lhistoryBits = s.lhistoryBits
    ∧ s1.pcIndexBits = s.pcIndexBits ∧ s1.bpType = s.bpType := by
  unfold train_tournament at h
  rcases h1 : train_chooser s pc outcome with _ | c
  · simp only [h1, Option.bind_eq_bind, Option.some_bind, Option.none_bind] at h
    exact absurd h (by simp)
  · rcases h2 : counter_update (2 ^ 8) s.gpht s.ghr outcome with _ | g
    · simp only [h1, h2, Option.bind_eq_bind, Option.some_bind, Option.none_bind] at h
      exact absurd h (by simp)
    · rcases h3 : s.lhr[pc &&& u32 (s.lhrSize + 2 ^ 32 - 1)]? with _ | L
      · simp only [h1, h2, h3, Option.bind_eq_bind, Option.some_bind, Option.none_bind] at h
        exact absurd h (by simp)
      · rcases h4 : counter_update (2 ^ 32) s.lpht L outcome with _ | l
        · simp only [h1, h2, h3, h4, Option.bind_eq_bind, Option.some_bind, Option.none_bind] at h
          exact absurd h (by simp)
        · simp only [h1, h2, h3, h4, Option.bind_eq_bind, Option.some_bind, Option.pure_def,
            Option.some.injEq] at h
          subst h
          exact ⟨rfl, rfl, rfl, rfl⟩

theorem train_custom_config {s s1 : State} {pc outcome : Nat} (hwf : PerceptronWF s)
    (h : train_custom s pc outcome = some s1) :
    s1.ghistoryBits = s.ghistoryBits ∧ s1.lhistoryBits = s.lhistoryBits
    ∧ s1.pcIndexBits = s.pcIndexBits ∧ s1.bpType = s.bpType
    ∧ s1.ghr = s.ghr ∧ s1.lhr = s.lhr := by
  obtain ⟨bias1, PT1, e, _⟩ := train_custom_some pc outcome hwf
  rw [e] at h
  have := Option.some.inj h
  subst this
  exact ⟨rfl, rfl, rfl, rfl, rfl, rfl⟩

theorem make_prediction_config {s s1 : State} {pc r : Nat}
    (h : make_prediction s pc = some (r, s1)) : SameConfig s s1 := by
  rcases make_prediction_cases h with ⟨_, h2⟩ | ⟨_, h2⟩
  · subst h2; exact sameConfig_refl _
  · obtain ⟨_, _, _, _, _, _, _, hs⟩ := pred_custom_parts h2
    rw [hs]
    exact ⟨rfl, rfl, rfl, rfl, fun _ => ⟨rfl, rfl⟩⟩

theorem train_predictor_config {s s1 : State} {pc outcome : Nat} (hinv : Reachable_inv s)
    (h : train_predictor s pc outcome = some s1) : SameConfig s s1 := by
  obtain ⟨hP, hC, hT⟩ := hinv
  unfold train_predictor at h
  split_ifs at h with h1 h2 h3
  · obtain ⟨a, ea, wa, ca, pa, _⟩ := train_gshare_inv pc outcome (hT (Or.inl h1)) hC
    obtain ⟨b, eb, wb, cb, pb, _⟩ := train_tournament_inv pc outcome wa ca
    simp only [ea, eb, Option.bind_eq_bind, Option.some_bind] at h
    obtain ⟨x1, x2, x3, x4⟩ := train_gshare_config ea
    obtain ⟨y1, y2, y3, y4⟩ := train_tournament_config eb
    obtain ⟨z1, z2, z3, z4, _, _⟩ := train_custom_config (pb (pa hP)) h
    exact ⟨z1.trans (y1.trans x1), z2.trans (y2.trans x2), z3.trans (y3.trans x3),
      z4.trans (y4.trans x4), fun hn => absurd (Or.inl h1) hn⟩
  · obtain ⟨b, eb, wb, cb, pb, _⟩ := train_tournament_inv pc outcome (hT (Or.inr h2)) hC
    simp only [eb, Option.bind_eq_bind, Option.some_bind] at h
    obtain ⟨y1, y2, y3, y4⟩ := train_tournament_config eb
    obtain ⟨z1, z2, z3, z4, _, _⟩ := train_custom_config (pb hP) h
    exact ⟨z1.trans y1, z2.trans y2, z3.trans y3, z4.trans y4,
      fun hn => absurd (Or.inr h2) hn⟩
  · obtain ⟨z1, z2, z3, z4, z5, z6⟩ := train_custom_config hP h
    exact ⟨z1, z2, z3, z4, fun _ => ⟨z5, z6⟩⟩
  · have := Option.some.inj h
    subst this
    exact sameConfig_refl _

theorem init_predictor_config {s s0 : State} (hp : s.pcIndexBits < 32)
    (hl : s.lhistoryBits < 32) (h : init_predictor s = some s0) : SameConfig s s0 := by
  unfold init_predictor at h
  rcases hg : one_shl s.ghistoryBits with _ | g
  · simp [hg] at h
  · simp only [hg, Option.bind_eq_bind, Option.some_bind] at h
    split_ifs at h with h1 h2 h3
    · rw [init_tournament_eq] at h
      rotate_left
      · exact hp
      · exact hl
      have := Option.some.inj h
      subst this
      exact ⟨rfl, rfl, rfl, rfl, fun hn => absurd (Or.inl h1) hn⟩
    · rw [init_tournament_eq] at h
      rotate_left
      · exact hp
      · exact hl
      have := Option.some.inj h
      subst this
      exact ⟨rfl, rfl, rfl, rfl, fun hn => absurd (Or.inr h2) hn⟩
    · have := Option.some.inj h
      subst this
      exact ⟨rfl, rfl, rfl, rfl, fun _ => ⟨rfl, rfl⟩⟩
    · have := Option.some.inj h
      subst this
      exact ⟨rfl, rfl, rfl, rfl, fun _ => ⟨rfl, rfl⟩⟩

theorem widthsOK_of_config {s s1 : State} (hc : SameConfig s s1) (hw : WidthsOK s)
    (hinv : Reachable_inv s1) : WidthsOK s1 := by
  obtain ⟨c1, c2, _, c4, c5⟩ := hc
  by_cases ht : s.bpType = GSHARE ∨ s.bpType = TOURNAMENT
  · have hwf := hinv.2.2 (by rw [c4]; exact ht)
    exact ⟨hwf.2.2.2.2.2.2.2.2.2.2.2.1, hwf.2.2.2.2.2.2.2.2.2.2.2.2⟩
  · obtain ⟨g, l⟩ := c5 ht
    unfold WidthsOK
    rw [g, l, c1, c2]
    exact hw

/-- Every call succeeds on a state that satisfies the invariant, keeps the
configuration, and keeps the history registers inside their widths. -/
theorem step_width {s : State} (c : Call) (hinv : Reachable_inv s) (hw : WidthsOK s) :
    ∃ s1, step s c = some s1 ∧ Reachable_inv s1 ∧ WidthsOK s1 ∧ SameConfig s s1 := by
  cases c with
  | predict pc =>
    obtain ⟨r, s1, e, i1, _⟩ := make_prediction_inv pc hinv
    have hc := make_prediction_config e
    exact ⟨s1, by simp [step, e], i1, widthsOK_of_config hc hw i1, hc⟩
  | train pc outcome =>
    obtain ⟨s1, e, i1, _⟩ := train_predictor_inv pc outcome hinv
    have hc := train_predictor_config hinv e
    exact ⟨s1, e, i1, widthsOK_of_config hc hw i1, hc⟩

theorem run_width (calls : List Call) :
    ∀ s : State, Reachable_inv s → WidthsOK s →
      ∃ s1, run s calls = some s1 ∧ Reachable_inv s1 ∧ WidthsOK s1 ∧ SameConfig s s1 := by
  induction calls with
  | nil => intro s h1 h2; exact ⟨s, rfl, h1, h2, sameConfig_refl s⟩
  | cons c cs ih =>
    intro s h1 h2
    obtain ⟨s1, e, i1, w1, c1⟩ := step_width c h1 h2
    obtain ⟨s2, e2, i2, w2, c2⟩ := ih s1 i1 w1
    exact ⟨s2, by simp [run, e, e2], i2, w2, sameConfig_trans c1 c2⟩

/-- The state that `init_predictor` leaves satisfies the invariant, has the booted
configuration, and has its history registers inside their widths. -/
theorem init_predictor_width (t : Int) {gb lb pb : Nat} (hg : gb < 32) (hl : lb < 32)
    (hp : pb < 32) :
    ∃ s0, init_predictor (boot t gb lb pb) = some s0 ∧ Reachable_inv s0 ∧ WidthsOK s0
      ∧ SameConfig (boot t gb lb pb) s0 := by
  obtain ⟨s0, e, hinv, _⟩ := init_predictor_inv t hg hl hp
  have hc : SameConfig (boot t gb lb pb) s0 := init_predictor_config hp hl e
  have hw : WidthsOK (boot t gb lb pb) :=
    ⟨Nat.two_pow_pos _, fun h hh => absurd hh (List.not_mem_nil h)⟩
  exact ⟨s0, e, hinv, widthsOK_of_config hc hw hinv, hc⟩

/-- Totality and widths: `train_gshare` on a well-formed state, whatever the counters. -/
theorem train_gshare_wf {s : State} (pc outcome : Nat) (hwf : TournamentWF s) :
    ∃ s1, train_gshare s pc outcome = some s1 ∧ TournamentWF s1 := by
  have hlsb : s.lsb = 2 ^ s.ghistoryBits - 1 := hwf.2.2.2.2.1
  have hlen : s.gpht.length = 2 ^ s.ghistoryBits := hwf.2.2.2.2.2.2.2.1
  have hlt : (s.ghr ^^^ pc) &&& s.lsb < s.gpht.length := by
    rw [hlsb, hlen]; exact and_pow_pred_lt _ _
  refine ⟨_, train_gshare_eq outcome (List.getElem?_eq_getElem hlt), ?_⟩
  refine tournamentWF_update hwf rfl rfl rfl rfl rfl rfl rfl (List.length_set _ _ _) rfl rfl
    rfl ?_ hwf.2.2.2.2.2.2.2.2.2.2.2.2
  show (u32 (s.ghr <<< 1) ||| outcome) &&& s.lsb < _
  rw [hlsb]; exact and_pow_pred_lt _ _

/-- Totality and widths: `train_tournament` on a well-formed state, whatever the
counters. -/
theorem train_tournament_wf {s : State} (pc outcome : Nat) (hwf : TournamentWF s) :
    ∃ s1, train_tournament s pc outcome = some s1 ∧ TournamentWF s1 := by
  obtain ⟨c, g0, L, l0, hc, hg0, hL, hl0, _, hidx, hmaskL, hmaskP⟩ := tournament_reads hwf pc
  have hg := pred_global_eq pc hidx hg0
  rw [← hmaskL] at hL
  have hl := pred_local_eq hL hl0
  have hlsb : s.lsb = 2 ^ s.ghistoryBits - 1 := hwf.2.2.2.2.1
  refine ⟨_, train_tournament_eq outcome hg hl hc hg0 hL hl0, ?_⟩
  refine tournamentWF_update hwf rfl rfl rfl rfl rfl rfl rfl (List.length_set _ _ _)
    (List.length_set _ _ _) (List.length_set _ _ _) (List.length_set _ _ _) ?_ ?_
  · show (u32 (s.ghr <<< 1) ||| outcome) &&& s.lsb < _
    rw [hlsb]; exact and_pow_pred_lt _ _
  · refine forall_mem_set_lt hwf.2.2.2.2.2.2.2.2.2.2.2.2 ?_
    rw [hmaskP]; exact and_pow_pred_lt _ _

/-! ## Gshare on a constant branch: lemmas -/

theorem testBit_outcome {o : Nat} (ho : o = NOTTAKEN ∨ o = TAKEN) (j : Nat) :
    o.testBit j = (decide (o = 1) && decide (j = 0)) := by
  rcases ho with h | h <;> subst h
  · simp [NOTTAKEN]
  · have := @Nat.testBit_two_pow 0 j
    simp only [pow_zero] at this
    simp only [TAKEN, this, decide_True, Bool.true_and]
    by_cases hj : j = 0
    · simp [hj]
    · have : ¬ 0 = j := fun h => hj h.symm
      simp [hj, this]

/-- Shifting the outcome into a register whose `k` low bits are the outcome gives a
register whose `k + 1` low bits are the outcome. -/
theorem ghr_step_bits {W o g k : Nat} (hW : W < 32) (ho : o = NOTTAKEN ∨ o = TAKEN)
    (h : ∀ j, j < k → j < W → g.testBit j = decide (o = 1)) :
    ∀ j, j < k + 1 → j < W →
      ((u32 (g <<< 1) ||| o) &&& (2 ^ W - 1)).testBit j = decide (o = 1) := by
  intro j hj hjW
  rw [shift_or_mask (by omega)]
  simp only [Nat.testBit_and, Nat.testBit_or, Nat.testBit_shiftLeft,
    Nat.testBit_two_pow_sub_one, testBit_outcome ho]
  by_cases h0 : j = 0
  · subst h0
    simp [hjW]
  · have h1 : j ≥ 1 := by omega
    have h2 := h (j - 1) (by omega) (by omega)
    simp [h0, h1, h2, hjW]

/-- A register below `2^W` whose `W` low bits are the outcome is not changed by
shifting the outcome in. -/
theorem ghr_step_fixed {W o g : Nat} (hW : W < 32) (ho : o = NOTTAKEN ∨ o = TAKEN)
    (h : ∀ j, j < W → j < W → g.testBit j = decide (o = 1)) (hg : g < 2 ^ W) :
    (u32 (g <<< 1) ||| o) &&& (2 ^ W - 1) = g := by
  apply Nat.eq_of_testBit_eq
  intro j
  by_cases hj : j < W
  · rw [ghr_step_bits hW ho h j (by omega) hj, h j hj hj]
  · have h1 : 2 ^ W ≤ 2 ^ j := Nat.pow_le_pow_right (by norm_num) (by omega)
    rw [Nat.testBit_lt_two_pow (lt_of_lt_of_le hg h1),
      Nat.testBit_lt_two_pow (lt_of_lt_of_le (and_pow_pred_lt _ W) h1)]

theorem train_gshare_times_add (pc o : Nat) (a b : Nat) :
    ∀ s : State, train_gshare_times s pc o (a + b)
      = (train_gshare_times s pc o a).bind (fun s1 => train_gshare_times s1 pc o b) := by
  induction a with
  | zero => intro s; simp [train_gshare_times]
  | succ a ih =>
    intro s
    rw [Nat.succ_add]
    simp only [train_gshare_times]
    rcases h : train_gshare s pc o with _ | s1
    · rfl
    · simp only [Option.some_bind]
      exact ih s1

/-- One `train_gshare` on a well-formed Gshare state with counters in `[0, 3]`. -/
theorem train_gshare_bits {s : State} {k : Nat} (pc : Nat) {o : Nat} (hwf : GshareWF s)
    (hcnt : ∀ c ∈ s.gpht, c ≤ 3) (ho : o = NOTTAKEN ∨ o = TAKEN)
    (hb : ∀ j, j < k → j < s.ghistoryBits → s.ghr.testBit j = decide (o = 1)) :
    ∃ s1, train_gshare s pc o = some s1 ∧ GshareWF s1 ∧ (∀ c ∈ s1.gpht, c ≤ 3)
      ∧ s1.ghistoryBits = s.ghistoryBits ∧ s1.ghr < 2 ^ s.ghistoryBits
      ∧ ∀ j, j < k + 1 → j < s.ghistoryBits → s1.ghr.testBit j = decide (o = 1) := by
  have hlt := gshare_index_lt hwf pc
  obtain ⟨hW, hmask, hlen⟩ := hwf
  have hget := List.getElem?_eq_getElem hlt
  have hc : s.gpht[(s.ghr ^^^ pc) &&& s.lsb] ≤ 3 := hcnt _ (List.getElem_mem _)
  refine ⟨_, train_gshare_eq o hget, ⟨hW, hmask, ?_⟩, ?_, rfl, ?_, ?_⟩
  · exact (List.length_set _ _ _).trans hlen
  · exact forall_mem_set_le hcnt (counter_next_le _ _ hc)
  · show (u32 (s.ghr <<< 1) ||| o) &&& s.lsb < _
    rw [hmask]; exact and_pow_pred_lt _ _
  · show ∀ j, j < k + 1 → j < s.ghistoryBits →
      ((u32 (s.ghr <<< 1) ||| o) &&& s.lsb).testBit j = decide (o = 1)
    rw [hmask]
    exact ghr_step_bits hW ho hb

theorem train_gshare_times_bits (pc : Nat) {o : Nat} (ho : o = NOTTAKEN ∨ o = TAKEN)
    (n : Nat) :
    ∀ (s : State) (k : Nat), GshareWF s → (∀ c ∈ s.gpht, c ≤ 3) →
      (∀ j, j < k → j < s.ghistoryBits → s.ghr.testBit j = decide (o = 1)) →
      s.ghr < 2 ^ s.ghistoryBits →
      ∃ s1, train_gshare_times s pc o n = some s1 ∧ GshareWF s1 ∧ (∀ c ∈ s1.gpht, c ≤ 3)
        ∧ s1.ghistoryBits = s.ghistoryBits ∧ s1.ghr < 2 ^ s.ghistoryBits
        ∧ ∀ j, j < k + n → j < s.ghistoryBits → s1.ghr.testBit j = decide (o = 1) := by
  induction n with
  | zero =>
    intro s k hwf hcnt hb hg
    exact ⟨s, rfl, hwf, hcnt, rfl, hg, hb⟩
  | succ n ih =>
    intro s k hwf hcnt hb hg
    obtain ⟨s1, e1, w1, c1, b1, g1, t1⟩ := train_gshare_bits pc hwf hcnt ho hb
    rw [← b1] at g1 t1
    obtain ⟨s2, e2, w2, c2, b2, g2, t2⟩ := ih s1 (k + 1) w1 c1 t1 g1
    refine ⟨s2, ?_, w2, c2, b2.trans b1, ?_, ?_⟩
    · simp only [train_gshare_times, e1, Option.some_bind]
      exact e2
    · rw [← b1]; exact g2
    · intro j hj hjW
      exact t2 j (by omega) (by rw [b1]; exact hjW)

theorem counter_next_twice {c o : Nat} (hc : c ≤ 3) (ho : o = NOTTAKEN ∨ o = TAKEN) :
    u8 (counter_next (2 ^ 8) (counter_next (2 ^ 8) c o) o >>> 1) = o := by
  rcases ho with h | h <;> subst h <;> interval_cases c <;> decide

/-- Two `train_gshare` calls on a state whose history register is saturated with the
outcome move the counter that `pred_gshare` reads twice towards the outcome. -/
theorem train_gshare_twice_fixed {s : State} (pc : Nat) {o : Nat} (hwf : GshareWF s)
    (hcnt : ∀ c ∈ s.gpht, c ≤ 3) (ho : o = NOTTAKEN ∨ o = TAKEN)
    (hb : ∀ j, j < s.ghistoryBits → j < s.ghistoryBits → s.ghr.testBit j = decide (o = 1))
    (hg : s.ghr < 2 ^ s.ghistoryBits) :
    ∃ s2, train_gshare_times s pc o 2 = some s2 ∧ pred_gshare s2 pc = some o := by
  have hlt := gshare_index_lt hwf pc
  obtain ⟨hW, hmask, hlen⟩ := hwf
  have hfix : (u32 (s.ghr <<< 1) ||| o) &&& s.lsb = s.ghr := by
    rw [hmask]; exact ghr_step_fixed hW ho hb hg
  have hget := List.getElem?_eq_getElem hlt
  have hc : s.gpht[(s.ghr ^^^ pc) &&& s.lsb] ≤ 3 := hcnt _ (List.getElem_mem _)
  have e1 := train_gshare_eq o hget
  rw [hfix] at e1
  have hget1 : ({ s with
      ghr := s.ghr
      gpht := s.gpht.set ((s.ghr ^^^ pc) &&& s.lsb)
        (counter_next (2 ^ 8) s.gpht[(s.ghr ^^^ pc) &&& s.lsb] o) } : State).gpht[
          (s.ghr ^^^ pc) &&& s.lsb]?
      = some (counter_next (2 ^ 8) s.gpht[(s.ghr ^^^ pc) &&& s.lsb] o) :=
    List.getElem?_set_self hlt
  have e2 := @train_gshare_eq { s with
      ghr := s.ghr
      gpht := s.gpht.set ((s.ghr ^^^ pc) &&& s.lsb)
        (counter_next (2 ^ 8) s.gpht[(s.ghr ^^^ pc) &&& s.lsb] o) } pc _ o hget1
  simp only [hfix] at e2
  simp only [train_gshare_times, e1, Option.some_bind, e2]
  refine ⟨_, rfl, ?_⟩
  unfold pred_gshare
  simp only [List.set_set, Option.bind_eq_bind]
  rw [List.getElem?_set_self hlt]
  simp only [Option.some_bind, Option.pure_def, Option.some.injEq]
  exact counter_next_twice hc ho

/-! ## Fall-through of the training dispatch: lemmas -/

theorem testBit_three_outcome {o : Nat} (ho : o = NOTTAKEN ∨ o = TAKEN) (j : Nat) :
    (3 * o).testBit j = (decide (o = 1) && decide (j < 2)) := by
  rcases ho with h | h <;> subst h
  · simp [NOTTAKEN]
  · have := Nat.testBit_two_pow_sub_one 2 j
    simpa [TAKEN] using this

/-- Shifting the outcome in twice, with the mask applied after each shift, is
shifting by two and masking once. -/
theorem ghr_twice {W o : Nat} (hW : W < 32) (ho : o = NOTTAKEN ∨ o = TAKEN) (g : Nat) :
    (u32 (((u32 (g <<< 1) ||| o) &&& (2 ^ W - 1)) <<< 1) ||| o) &&& (2 ^ W - 1)
      = ((g <<< 2) ||| (3 * o)) &&& (2 ^ W - 1) := by
  rw [shift_or_mask (by omega), shift_or_mask (by omega)]
  apply Nat.eq_of_testBit_eq
  intro j
  simp only [Nat.testBit_and, Nat.testBit_or, Nat.testBit_shiftLeft,
    Nat.testBit_two_pow_sub_one, testBit_outcome ho, testBit_three_outcome ho]
  by_cases hj : j < W
  · by_cases h0 : j = 0
    · subst h0; simp [hj]
    · by_cases h1 : j = 1
      · subst h1
        have hw0 : 0 < W := by omega
        simp [hj, hw0]
      · have h2 : j ≥ 2 := by omega
        have h3 : j - 1 ≥ 1 := by omega
        have h4 : j - 1 < W := by omega
        have h5 : ¬ j - 1 = 0 := by omega
        have h6 : ¬ j < 2 := by omega
        have h7 : j ≥ 1 := by omega
        have h8 : j - 1 - 1 = j - 2 := by omega
        simp [hj, h0, h2, h3, h4, h5, h6, h7, h8]
  · simp [hj]

/-! ## Perceptron output after training: lemmas -/

theorem sum_map_add_const (l : List Nat) (f g : Nat → Int) (d : Int)
    (h : ∀ i ∈ l, f i = g i + d) : (l.map f).sum = (l.map g).sum + d * l.length := by
  induction l with
  | nil => simp
  | cons a t ih =>
    have h1 := h a (List.mem_cons_self _ _)
    have h2 := ih (fun i hi => h i (List.mem_cons_of_mem _ hi))
    simp only [List.map_cons, List.sum_cons, List.length_cons, h1, h2]
    push_cast
    ring

theorem step_times_input {o : Nat} (ho : o = NOTTAKEN ∨ o = TAKEN) (ghr i : Nat) :
    spec_weight_step ghr o i * spec_history_input ghr i = spec_bias_step o := by
  unfold spec_weight_step spec_history_input spec_bias_step
  rcases ho with h | h <;> subst h <;> cases ghr.testBit i <;> simp [NOTTAKEN, TAKEN]

theorem sticky_step_inside {w : Int} (d : Int) (hw : MinWeight < w ∧ w < MaxWeight) :
    sticky_step w d = w + d := by
  unfold sticky_step
  rw [if_pos hw]

theorem entry_in_range_of_strict {s : State} {e : Nat} (h : EntryStrictlyInside s e) :
    EntryInRange s e :=
  ⟨⟨le_of_lt h.1.1, le_of_lt h.1.2⟩, fun w hw => ⟨le_of_lt (h.2 w hw).1, le_of_lt (h.2 w hw).2⟩⟩

/-- The output of an entry after a training that moved the bias and every weight. -/
theorem output_after_training {s0 : State} {e : Nat} {b : Int} {row row1 : List Int}
    {o : Nat} (ho : o = NOTTAKEN ∨ o = TAKEN) (bias1 : List Int) (PT1 : List (List Int))
    (hb : s0.bias[e]? = some b) (hrow : s0.PT[e]? = some row)
    (hb1 : bias1[e]? = some (b + spec_bias_step o)) (hrow1 : PT1[e]? = some row1)
    (hw : ∀ i, i < N → ∃ w, row[i]? = some w
      ∧ row1[i]? = some (w + spec_weight_step s0.ghr_c o i)) :
    spec_perceptron_output { s0 with bias := bias1, PT := PT1 } e
      = spec_perceptron_output s0 e + 33 * spec_bias_step o := by
  unfold spec_perceptron_output
  simp only [List.getD_eq_getElem?_getD, hb, hrow, hb1, hrow1, Option.getD_some]
  rw [sum_map_add_const (List.range N)
    (fun i => row1[i]?.getD 0 * spec_history_input s0.ghr_c i)
    (fun i => row[i]?.getD 0 * spec_history_input s0.ghr_c i) (spec_bias_step o)]
  · rw [List.length_range]
    unfold N
    push_cast
    ring
  · intro i hi
    obtain ⟨w, h1, h2⟩ := hw i (List.mem_range.mp hi)
    simp only [h1, h2, Option.getD_some]
    rw [add_mul, step_times_input ho]

/-! ## Saturation invariant (C1) -/

/-- C1: for every predictor type and bit widths in `0..31`, `init_predictor` succeeds
in a state whose counters (all entries of `gpht`, `lpht` and `cpht`) are in `[0, 3]`,
and after every sequence of `make_prediction` / `train_predictor` calls (any `pc`, any
outcome) the calls have all succeeded and the counters are in `[0, 3]`.  In inductive
form: `train_gshare` and `train_tournament` succeed on every well-formed state with
counters in `[0, 3]` and leave a well-formed state with counters in `[0, 3]`. -/
theorem counters_saturate (t : Int) (gb lb pb : Nat) (hg : gb < 32) (hl : lb < 32)
    (hp : pb < 32) :
    (∃ s0, init_predictor (boot t gb lb pb) = some s0 ∧ CountersOK s0
      ∧ ∀ calls : List Call, ∃ s1, run s0 calls = some s1 ∧ CountersOK s1)
    ∧ (∀ (s : State) (pc outcome : Nat), TournamentWF s → CountersOK s →
        ∃ s1, train_gshare s pc outcome = some s1 ∧ TournamentWF s1 ∧ CountersOK s1)
    ∧ (∀ (s : State) (pc outcome : Nat), TournamentWF s → CountersOK s →
        ∃ s1, train_tournament s pc outcome = some s1 ∧ TournamentWF s1 ∧ CountersOK s1) := by
  refine ⟨?_, ?_, ?_⟩
  · obtain ⟨s0, h0, hinv, _⟩ := init_predictor_inv t hg hl hp
    refine ⟨s0, h0, hinv.2.1, ?_⟩
    intro calls
    obtain ⟨s1, h1, hinv1⟩ := run_inv calls s0 hinv
    exact ⟨s1, h1, hinv1.2.1⟩
  · intro s pc outcome hwf hcnt
    obtain ⟨s1, h1, h2, h3, _⟩ := train_gshare_inv pc outcome hwf hcnt
    exact ⟨s1, h1, h2, h3⟩
  · intro s pc outcome hwf hcnt
    obtain ⟨s1, h1, h2, h3, _⟩ := train_tournament_inv pc outcome hwf hcnt
    exact ⟨s1, h1, h2, h3⟩

/-- C1 at a concrete configuration: Gshare with `ghistoryBits = 2`,
`lhistoryBits = pcIndexBits = 1`. -/
theorem counters_saturate_witness :
    (2 < 32 ∧ 1 < 32 ∧ 1 < 32)
    ∧ ((∃ s0, init_predictor (boot GSHARE 2 1 1) = some s0 ∧ CountersOK s0
      ∧ ∀ calls : List Call, ∃ s1, run s0 calls = some s1 ∧ CountersOK s1)
    ∧ (∀ (s : State) (pc outcome : Nat), TournamentWF s → CountersOK s →
        ∃ s1, train_gshare s pc outcome = some s1 ∧ TournamentWF s1 ∧ CountersOK s1)
    ∧ (∀ (s : State) (pc outcome : Nat), TournamentWF s → CountersOK s →
        ∃ s1, train_tournament s pc outcome = some s1 ∧ TournamentWF s1 ∧ CountersOK s1)) :=
  ⟨by decide, counters_saturate GSHARE 2 1 1 (by decide) (by decide) (by decide)⟩

/-! ## `make_prediction` and the state (C2) -/

set_option maxRecDepth 100000 in
/-- C2, refuted as stated: with the Custom predictor, `make_prediction` on the state
that `init_predictor` leaves changes `indexPT` from 0 to `pc mod 248` (here 1); on
`perceptron_example` it also changes `y` from 0 to 6 and `pred_c` from 0 to 1. -/
theorem make_prediction_mutates_custom :
    (init_predictor (boot CUSTOM 0 0 0)).map (fun s => s.indexPT) = some 0
    ∧ ((init_predictor (boot CUSTOM 0 0 0)).bind (fun s => make_prediction s 1)).map
        (fun p => p.2.indexPT) = some 1
    ∧ (perceptron_example.indexPT, perceptron_example.y, perceptron_example.pred_c) = (0, 0, 0)
    ∧ (make_prediction perceptron_example 253).map
        (fun p => (p.2.indexPT, p.2.y, p.2.pred_c)) = some (5, 6, 1)
    ∧ (make_prediction perceptron_example 253).map Prod.snd ≠ some perceptron_example := by
  decide

/-- C2, amended: whenever `make_prediction(pc)` returns, every table and every history
register is as before the call: for the Static, Gshare and Tournament types (and for
an unknown type) the complete state is unchanged, and for the Custom type the state
differs from the one before the call at most in `indexPT`, `y` and `pred_c`, which hold
`pc mod EntryNumber`, the computed output and the returned prediction. -/
theorem make_prediction_frame (s s1 : State) (pc r : Nat)
    (h : make_prediction s pc = some (r, s1)) :
    s1 = { s with indexPT := s1.indexPT, y := s1.y, pred_c := s1.pred_c }
    ∧ (s.bpType ≠ CUSTOM → s1 = s)
    ∧ (s.bpType = CUSTOM → s1.indexPT = pc % EntryNumber ∧ s1.pred_c = r
        ∧ (r = TAKEN ↔ s1.y > 0)) := by
  rcases make_prediction_cases h with ⟨h1, h2⟩ | ⟨h1, h2⟩
  · subst h2
    exact ⟨rfl, fun _ => rfl, fun h3 => absurd h3 h1⟩
  · obtain ⟨b, row, y, _, _, _, hr, hs1⟩ := pred_custom_parts h2
    refine ⟨?_, fun h3 => absurd h1 h3, fun _ => ?_⟩
    · rw [hs1]
    · rw [hs1]
      refine ⟨rfl, rfl, ?_⟩
      show r = TAKEN ↔ y > 0
      rw [hr]
      split_ifs with hy <;> simp [hy, TAKEN, NOTTAKEN]

set_option maxRecDepth 100000 in
/-- C2 (amended) at a concrete state: the Custom predictor on `perceptron_example`. -/
theorem make_prediction_frame_witness :
    make_prediction perceptron_example 253
      = some (1, { perceptron_example with indexPT := 5, y := 6, pred_c := 1 })
    ∧ ({ perceptron_example with indexPT := 5, y := 6, pred_c := 1 }
        = { perceptron_example with
            indexPT := ({ perceptron_example with indexPT := 5, y := 6, pred_c := 1 } : State).indexPT
            y := ({ perceptron_example with indexPT := 5, y := 6, pred_c := 1 } : State).y
            pred_c := ({ perceptron_example with indexPT := 5, y := 6, pred_c := 1 } : State).pred_c }
      ∧ (perceptron_example.bpType ≠ CUSTOM →
          { perceptron_example with indexPT := 5, y := 6, pred_c := 1 } = perceptron_example)
      ∧ (perceptron_example.bpType = CUSTOM →
          ({ perceptron_example with indexPT := 5, y := 6, pred_c := 1 } : State).indexPT
            = 253 % EntryNumber
          ∧ ({ perceptron_example with indexPT := 5, y := 6, pred_c := 1 } : State).pred_c = 1
          ∧ (1 = TAKEN ↔
            ({ perceptron_example with indexPT := 5, y := 6, pred_c := 1 } : State).y > 0))) :=
  ⟨by decide,
   make_prediction_frame perceptron_example
     { perceptron_example with indexPT := 5, y := 6, pred_c := 1 } 253 1 (by decide)⟩

/-! ## Idempotence of predict (C3) -/

/-- C3: for every predictor type, every state and every `pc`, when `make_prediction(pc)`
returns `r`, a second call right after it (on the state the first call left) returns
`r` as well, and leaves the state as the first call left it. -/
theorem make_prediction_idempotent (s s1 : State) (pc r : Nat)
    (h : make_prediction s pc = some (r, s1)) :
    make_prediction s1 pc = some (r, s1) := by
  rcases make_prediction_cases h with ⟨_, h2⟩ | ⟨h1, h2⟩
  · subst h2
    exact h
  · obtain ⟨b, row, y, hb, hrow, hy, hr, hs1⟩ := pred_custom_parts h2
    have hty : s1.bpType = CUSTOM := by rw [hs1]; exact h1
    have hne0 : ¬ CUSTOM = STATIC := by decide
    have hne1 : ¬ CUSTOM = GSHARE := by decide
    have hne2 : ¬ CUSTOM = TOURNAMENT := by decide
    unfold make_prediction
    rw [hty, if_neg hne0, if_neg hne1, if_neg hne2, if_pos rfl]
    have hb1 : s1.bias[pc % EntryNumber]? = some b := by rw [hs1]; exact hb
    have hrow1 : s1.PT[pc % EntryNumber]? = some row := by rw [hs1]; exact hrow
    have hy1 : pred_custom_loop row s1.ghr_c N 0 1 b = some y := by rw [hs1]; exact hy
    unfold pred_custom
    simp only [hb1, hrow1, hy1, Option.bind_eq_bind, Option.some_bind, Option.pure_def,
      Option.some.injEq, Prod.mk.injEq]
    refine ⟨hr.symm, ?_⟩
    rw [← hr]
    conv_rhs => rw [hs1]
    rw [hs1]

set_option maxRecDepth 100000 in
/-- C3 at a concrete state: the Custom predictor on `perceptron_example`. -/
theorem make_prediction_idempotent_witness :
    make_prediction perceptron_example 253
      = some (1, { perceptron_example with indexPT := 5, y := 6, pred_c := 1 })
    ∧ make_prediction { perceptron_example with indexPT := 5, y := 6, pred_c := 1 } 253
      = some (1, { perceptron_example with indexPT := 5, y := 6, pred_c := 1 }) :=
  ⟨by decide,
   make_prediction_idempotent perceptron_example
     { perceptron_example with indexPT := 5, y := 6, pred_c := 1 } 253 1 (by decide)⟩

/-! ## Dispatch of training (C4) -/

set_option maxRecDepth 100000 in
/-- C4, the code at the failing input: Gshare initialised with `ghistoryBits = 2`, one
call `train_predictor(0, Taken)`.  `train_gshare` alone would leave the history
register at 1 and the table at `[2, 1, 1, 1]`; `train_predictor` leaves the history
register at 3 and the table at `[2, 2, 1, 1]`, because the `switch` falls through
into `train_tournament` (and `train_custom`).  With the Static type the same call
changes nothing. -/
theorem train_predictor_gshare_not_single :
    ((init_predictor (boot GSHARE 2 0 0)).bind (fun s => train_gshare s 0 TAKEN)).map
        (fun s => (s.ghr, s.gpht)) = some (1, [2, 1, 1, 1])
    ∧ ((init_predictor (boot GSHARE 2 0 0)).bind (fun s => train_predictor s 0 TAKEN)).map
        (fun s => (s.ghr, s.gpht)) = some (3, [2, 2, 1, 1])
    ∧ ((init_predictor (boot GSHARE 2 0 0)).bind (fun s => train_predictor s 0 TAKEN))
        = (init_predictor (boot GSHARE 2 0 0)).bind (fun s =>
            (train_gshare s 0 TAKEN).bind (fun s1 =>
              (train_tournament s1 0 TAKEN).bind (fun s2 => train_custom s2 0 TAKEN)))
    ∧ ((init_predictor (boot STATIC 2 0 0)).bind (fun s => train_predictor s 0 TAKEN))
        = init_predictor (boot STATIC 2 0 0) := by
  decide

/-! ## Gshare round trip (C5) -/

set_option maxRecDepth 100000 in
/-- C5, refuted as stated: Gshare initialised with `ghistoryBits = 2`, then
`train(pc = 0, Taken)` twice.  The claim puts the counter at index 0 at 3 after the
second call; it is 2, because the second call indexes with the advanced history
(index 1).  The same holds when the calls go through `train_predictor`. -/
theorem round_trip_index0_stays_two :
    ((init_predictor (boot GSHARE 2 0 0)).bind
        (fun s => train_gshare_times s 0 TAKEN 2)).map (fun s => s.gpht[0]?) = some (some 2)
    ∧ ((init_predictor (boot GSHARE 2 0 0)).bind
        (fun s => train_gshare_times s 0 TAKEN 2)).map (fun s => s.gpht[0]?) ≠ some (some 3)
    ∧ ((init_predictor (boot GSHARE 2 0 0)).bind
        (fun s => run s [Call.train 0 TAKEN, Call.train 0 TAKEN])).map (fun s => s.gpht[0]?)
          = some (some 2) := by
  decide

set_option maxRecDepth 100000 in
/-- C5, amended: after Gshare is initialised with `ghistoryBits = 2` the table is
`[1, 1, 1, 1]` and the history register 0, and `pred_gshare(0)` is Not-Taken; three
calls `train_gshare(0, Taken)` raise the counters at the indices 0, 1 and 3 from 1 to
2 (the history register is 1, 3, 3 after them), so the counter at index 0 is 2 after
each call; the following `pred_gshare(0)` reads index 3 and is Taken. -/
theorem gshare_round_trip :
    (init_predictor (boot GSHARE 2 0 0)).map (fun s => (s.gpht, s.ghr)) = some ([1, 1, 1, 1], 0)
    ∧ (init_predictor (boot GSHARE 2 0 0)).bind (fun s => pred_gshare s 0) = some NOTTAKEN
    ∧ ((init_predictor (boot GSHARE 2 0 0)).bind
        (fun s => train_gshare_times s 0 TAKEN 1)).map (fun s => (s.gpht, s.ghr))
          = some ([2, 1, 1, 1], 1)
    ∧ ((init_predictor (boot GSHARE 2 0 0)).bind
        (fun s => train_gshare_times s 0 TAKEN 2)).map (fun s => (s.gpht, s.ghr))
          = some ([2, 2, 1, 1], 3)
    ∧ ((init_predictor (boot GSHARE 2 0 0)).bind
        (fun s => train_gshare_times s 0 TAKEN 3)).map (fun s => (s.gpht, s.ghr))
          = some ([2, 2, 1, 2], 3)
    ∧ ((init_predictor (boot GSHARE 2 0 0)).bind
        (fun s => train_gshare_times s 0 TAKEN 3)).bind (fun s => pred_gshare s 0)
          = some TAKEN := by
  decide

/-! ## Gshare train step (C6) -/

/-- C6: in a state whose mask is `2^ghistoryBits - 1` (table of `2^ghistoryBits`
counters, all in `[0, 3]`), for every `pc` and every outcome in `{0, 1}`,
`train_gshare` succeeds and (1) the counter at index `(GHR XOR pc) AND mask`, the one
`pred_gshare` reads before the call, receives the saturating update, (2) every
other counter is unchanged, (3) the history register becomes
`((GHR << 1) OR outcome) AND mask`; no other variable changes. -/
theorem train_gshare_step (s : State) (pc outcome : Nat)
    (hwf : GshareWF s) (hcnt : ∀ c ∈ s.gpht, c ≤ 3)
    (ho : outcome = NOTTAKEN ∨ outcome = TAKEN) :
    ∃ c s1,
      s.gpht[(s.ghr ^^^ pc) &&& (2 ^ s.ghistoryBits - 1)]? = some c
      ∧ pred_gshare s pc = some (spec_counter_predict c)
      ∧ train_gshare s pc outcome = some s1
      ∧ s1.gpht[(s.ghr ^^^ pc) &&& (2 ^ s.ghistoryBits - 1)]? = some (spec_counter_train c outcome)
      ∧ (∀ j, j ≠ (s.ghr ^^^ pc) &&& (2 ^ s.ghistoryBits - 1) → s1.gpht[j]? = s.gpht[j]?)
      ∧ s1.gpht.length = s.gpht.length
      ∧ s1.ghr = ((s.ghr <<< 1) ||| outcome) &&& (2 ^ s.ghistoryBits - 1)
      ∧ s1 = { s with ghr := s1.ghr, gpht := s1.gpht } := by
  have hlt := gshare_index_lt hwf pc
  obtain ⟨hb, hmask, hlen⟩ := hwf
  have hget := List.getElem?_eq_getElem hlt
  have hc : s.gpht[(s.ghr ^^^ pc) &&& s.lsb] ≤ 3 := hcnt _ (List.getElem_mem _)
  refine ⟨s.gpht[(s.ghr ^^^ pc) &&& s.lsb], _, ?_, ?_, train_gshare_eq outcome hget, ?_, ?_, ?_,
    ?_, rfl⟩
  · rw [← hmask]; exact hget
  · unfold pred_gshare
    simp only [hget, Option.bind_eq_bind, Option.some_bind]
    rw [← spec_counter_predict_eq hc]; rfl
  · rw [← hmask, ← counter_next_eq_spec (2 ^ 8) (by norm_num) hc ho]
    exact List.getElem?_set_self hlt
  · intro j hj
    rw [← hmask] at hj
    exact List.getElem?_set_ne (Ne.symm hj)
  · exact List.length_set _ _ _
  · show (u32 (s.ghr <<< 1) ||| outcome) &&& s.lsb = _
    rw [hmask]
    exact shift_or_mask (by omega) _ _

/-- C6 at a concrete state: history register 2, `pc = 3`, outcome Taken. -/
theorem train_gshare_step_witness :
    ∃ c s1,
      gshare_example.gpht[(gshare_example.ghr ^^^ 3) &&& (2 ^ gshare_example.ghistoryBits - 1)]?
        = some c
      ∧ pred_gshare gshare_example 3 = some (spec_counter_predict c)
      ∧ train_gshare gshare_example 3 TAKEN = some s1
      ∧ s1.gpht[(gshare_example.ghr ^^^ 3) &&& (2 ^ gshare_example.ghistoryBits - 1)]?
        = some (spec_counter_train c TAKEN)
      ∧ (∀ j, j ≠ (gshare_example.ghr ^^^ 3) &&& (2 ^ gshare_example.ghistoryBits - 1) →
          s1.gpht[j]? = gshare_example.gpht[j]?)
      ∧ s1.gpht.length = gshare_example.gpht.length
      ∧ s1.ghr = ((gshare_example.ghr <<< 1) ||| TAKEN) &&& (2 ^ gshare_example.ghistoryBits - 1)
      ∧ s1 = { gshare_example with ghr := s1.ghr, gpht := s1.gpht } :=
  train_gshare_step gshare_example 3 TAKEN (by unfold GshareWF; decide) (by decide)
    (Or.inr rfl)

/-! ## Tournament selection (C7) -/

/-- C7: in a well-formed tournament state, with `c = cpht[GHR]`, `g0 = gpht[GHR]` and
`l0 = lpht[lhr[pc AND (2^pcIndexBits - 1)]]`, the global sub-prediction is Taken iff
`g0 >= 2`, the local one is Taken iff `l0 >= 2`, and `pred_tournament(pc)` is the global
sub-prediction when `c` is 0 or 1 and the local one when `c` is 2 or more; when
`c = 0` the result is the global sub-prediction whatever the local history table and
the local pattern table hold. -/
theorem pred_tournament_selection (s : State) (pc : Nat) (hwf : TournamentWF s) :
    ∃ c g0 L l0,
      s.cpht[s.ghr]? = some c ∧ s.gpht[s.ghr]? = some g0
      ∧ s.lhr[pc &&& (2 ^ s.pcIndexBits - 1)]? = some L ∧ s.lpht[L]? = some l0
      ∧ pred_global s pc = some (if g0 ≥ 2 then TAKEN else NOTTAKEN)
      ∧ pred_local s pc = some (if l0 ≥ 2 then TAKEN else NOTTAKEN)
      ∧ (c ≤ 1 → pred_tournament s pc = some (if g0 ≥ 2 then TAKEN else NOTTAKEN))
      ∧ (2 ≤ c → pred_tournament s pc = some (if l0 ≥ 2 then TAKEN else NOTTAKEN))
      ∧ (c = 0 → ∀ lhr1 lpht1 : List Nat,
          pred_tournament { s with lhr := lhr1, lpht := lpht1 } pc
            = some (if g0 ≥ 2 then TAKEN else NOTTAKEN)) := by
  obtain ⟨c, g0, L, l0, hc, hg0, hL, hl0, _, hidx, hmaskL, _⟩ := tournament_reads hwf pc
  have hg := pred_global_eq pc hidx hg0
  have hl : pred_local s pc = some (spec_counter_predict l0) :=
    pred_local_eq (by rw [hmaskL]; exact hL) hl0
  refine ⟨c, g0, L, l0, hc, hg0, hL, hl0, hg, hl, ?_, ?_, ?_⟩
  · intro h
    unfold pred_tournament
    simp only [hc, Option.bind_eq_bind, Option.some_bind, WN, h, if_true]
    exact hg
  · intro h
    have h1 : ¬ c ≤ 1 := by omega
    unfold pred_tournament
    simp only [hc, Option.bind_eq_bind, Option.some_bind, WN, h1, if_false]
    exact hl
  · intro h lhr1 lpht1
    subst h
    have hg1 : pred_global { s with lhr := lhr1, lpht := lpht1 } pc = some (spec_counter_predict g0) :=
      pred_global_eq pc hidx hg0
    unfold pred_tournament
    simp only [hc, Option.bind_eq_bind, Option.some_bind, WN, Nat.zero_le, if_true]
    exact hg1

/-- C7 at a concrete state (chooser counter 2: the local sub-prediction is returned). -/
theorem pred_tournament_selection_witness :
    TournamentWF tournament_example
    ∧ ∃ c g0 L l0,
      tournament_example.cpht[tournament_example.ghr]? = some c
      ∧ tournament_example.gpht[tournament_example.ghr]? = some g0
      ∧ tournament_example.lhr[1 &&& (2 ^ tournament_example.pcIndexBits - 1)]? = some L
      ∧ tournament_example.lpht[L]? = some l0
      ∧ pred_global tournament_example 1 = some (if g0 ≥ 2 then TAKEN else NOTTAKEN)
      ∧ pred_local tournament_example 1 = some (if l0 ≥ 2 then TAKEN else NOTTAKEN)
      ∧ (c ≤ 1 → pred_tournament tournament_example 1
          = some (if g0 ≥ 2 then TAKEN else NOTTAKEN))
      ∧ (2 ≤ c → pred_tournament tournament_example 1
          = some (if l0 ≥ 2 then TAKEN else NOTTAKEN))
      ∧ (c = 0 → ∀ lhr1 lpht1 : List Nat,
          pred_tournament { tournament_example with lhr := lhr1, lpht := lpht1 } 1
            = some (if g0 ≥ 2 then TAKEN else NOTTAKEN)) :=
  ⟨by unfold TournamentWF; decide,
   pred_tournament_selection tournament_example 1 (by unfold TournamentWF; decide)⟩

/-! ## Tournament chooser update (C8) -/

/-- C8: in a well-formed tournament state with counters in `[0, 3]`, for every `pc` and
every outcome in `{0, 1}`, `train_tournament` succeeds and, with `c` the chooser counter
at index `GHR` before the call, `c1` the one after it, and `g`, `l` the global and local
sub-predictions before the call: `c1 = c` if `g = l`; if `g ≠ l` exactly one of them
equals the outcome, and `c1 = c - 1` when `g` does and `c > 0`, `c1 = c + 1` when `l`
does and `c < 3`, and `c1 = c` at the saturation bound; so the counter moves by at most
one step.  Every other chooser entry is unchanged. -/
theorem train_tournament_chooser (s : State) (pc outcome : Nat)
    (hwf : TournamentWF s) (hcnt : CountersOK s)
    (ho : outcome = NOTTAKEN ∨ outcome = TAKEN) :
    ∃ c g l s1 c1,
      s.cpht[s.ghr]? = some c ∧ pred_global s pc = some g ∧ pred_local s pc = some l
      ∧ train_tournament s pc outcome = some s1
      ∧ s1.cpht[s.ghr]? = some c1
      ∧ (∀ j, j ≠ s.ghr → s1.cpht[j]? = s.cpht[j]?)
      ∧ (g = l → c1 = c)
      ∧ (g ≠ l → (g = outcome ∧ l ≠ outcome) ∨ (l = outcome ∧ g ≠ outcome))
      ∧ (g ≠ l → g = outcome → 0 < c → c1 + 1 = c)
      ∧ (g ≠ l → g = outcome → c = 0 → c1 = 0)
      ∧ (g ≠ l → l = outcome → c < 3 → c1 = c + 1)
      ∧ (g ≠ l → l = outcome → c = 3 → c1 = 3)
      ∧ (c1 = c ∨ c1 + 1 = c ∨ c1 = c + 1) := by
  obtain ⟨c, g0, L, l0, hc, hg0, hL, hl0, _, hidx, hmaskL, _⟩ := tournament_reads hwf pc
  have hg := pred_global_eq pc hidx hg0
  rw [← hmaskL] at hL
  have hl := pred_local_eq hL hl0
  have hlt : s.ghr < s.cpht.length := (List.getElem?_eq_some.mp hc).1
  have hc3 : c ≤ 3 := hcnt.2.2 c (List.mem_iff_getElem?.mpr ⟨_, hc⟩)
  have hu : u32 (c + 1) = c + 1 := Nat.mod_eq_of_lt (by omega)
  have hgv : spec_counter_predict g0 = NOTTAKEN ∨ spec_counter_predict g0 = TAKEN := by
    unfold spec_counter_predict; split_ifs <;> simp
  have hlv : spec_counter_predict l0 = NOTTAKEN ∨ spec_counter_predict l0 = TAKEN := by
    unfold spec_counter_predict; split_ifs <;> simp
  refine ⟨c, spec_counter_predict g0, spec_counter_predict l0, _, chooser_next c (spec_counter_predict g0)
    (spec_counter_predict l0) outcome, hc, hg, hl, train_tournament_eq outcome hg hl hc hg0 hL hl0,
    List.getElem?_set_self hlt, fun j hj => List.getElem?_set_ne (Ne.symm hj), ?_, ?_, ?_, ?_,
    ?_, ?_, ?_⟩
  · intro h; simp [chooser_next, h]
  · intro h
    unfold NOTTAKEN TAKEN at hgv hlv ho
    omega
  · intro h1 h2 h3
    have h0 : c ≠ 0 := by omega
    have : chooser_next c (spec_counter_predict g0) (spec_counter_predict l0) outcome = c - 1 := by
      unfold chooser_next; rw [if_pos h1, if_pos h2, if_pos h0]
    omega
  · intro h1 h2 h3
    have h0 : ¬ c ≠ 0 := by omega
    unfold chooser_next; rw [if_pos h1, if_pos h2, if_neg h0]; exact h3
  · intro h1 h2 h3
    have h4 : ¬ spec_counter_predict g0 = outcome := fun h => h1 (h.trans h2.symm)
    have h0 : c ≠ 3 := by omega
    unfold chooser_next; rw [if_pos h1, if_neg h4, if_pos h2, if_pos h0]; exact hu
  · intro h1 h2 h3
    have h4 : ¬ spec_counter_predict g0 = outcome := fun h => h1 (h.trans h2.symm)
    have h0 : ¬ c ≠ 3 := by omega
    unfold chooser_next; rw [if_pos h1, if_neg h4, if_pos h2, if_neg h0]; exact h3
  · unfold chooser_next
    split_ifs <;> omega

/-- C8 at a concrete state: the sub-predictions disagree, the local one matches the
outcome Not-Taken, the chooser counter goes from 2 to 3. -/
theorem train_tournament_chooser_witness :
    (TournamentWF tournament_example ∧ CountersOK tournament_example)
    ∧ ∃ c g l s1 c1,
      tournament_example.cpht[tournament_example.ghr]? = some c
      ∧ pred_global tournament_example 1 = some g ∧ pred_local tournament_example 1 = some l
      ∧ train_tournament tournament_example 1 NOTTAKEN = some s1
      ∧ s1.cpht[tournament_example.ghr]? = some c1
      ∧ (∀ j, j ≠ tournament_example.ghr → s1.cpht[j]? = tournament_example.cpht[j]?)
      ∧ (g = l → c1 = c)
      ∧ (g ≠ l → (g = NOTTAKEN ∧ l ≠ NOTTAKEN) ∨ (l = NOTTAKEN ∧ g ≠ NOTTAKEN))
      ∧ (g ≠ l → g = NOTTAKEN → 0 < c → c1 + 1 = c)
      ∧ (g ≠ l → g = NOTTAKEN → c = 0 → c1 = 0)
      ∧ (g ≠ l → l = NOTTAKEN → c < 3 → c1 = c + 1)
      ∧ (g ≠ l → l = NOTTAKEN → c = 3 → c1 = 3)
      ∧ (c1 = c ∨ c1 + 1 = c ∨ c1 = c + 1) :=
  ⟨⟨by unfold TournamentWF; decide, by unfold CountersOK; decide⟩,
   train_tournament_chooser tournament_example 1 NOTTAKEN (by unfold TournamentWF; decide)
     (by unfold CountersOK; decide) (Or.inl rfl)⟩

/-! ## Tournament train uses the pre-update registers (C9) -/

/-- C9: in a well-formed tournament state with counters in `[0, 3]`, for every `pc` and
every outcome in `{0, 1}`, `train_tournament` succeeds; it applies the saturating
update to `gpht[GHR]` and to `lpht[L]`, where `GHR` and `L = lhr[pc AND (2^pcIndexBits - 1)]`
are the values before the call, leaves the other cells of both tables unchanged, and
afterwards `GHR = ((GHR << 1) OR outcome) AND (2^ghistoryBits - 1)` and
`lhr[pc AND (2^pcIndexBits - 1)] = ((L << 1) OR outcome) AND (2^lhistoryBits - 1)`, the
other local history registers being unchanged. -/
theorem train_tournament_pre_update (s : State) (pc outcome : Nat)
    (hwf : TournamentWF s) (hcnt : CountersOK s)
    (ho : outcome = NOTTAKEN ∨ outcome = TAKEN) :
    ∃ g0 L l0 s1,
      s.gpht[s.ghr]? = some g0
      ∧ s.lhr[pc &&& (2 ^ s.pcIndexBits - 1)]? = some L ∧ s.lpht[L]? = some l0
      ∧ train_tournament s pc outcome = some s1
      ∧ s1.gpht[s.ghr]? = some (spec_counter_train g0 outcome)
      ∧ (∀ j, j ≠ s.ghr → s1.gpht[j]? = s.gpht[j]?)
      ∧ s1.lpht[L]? = some (spec_counter_train l0 outcome)
      ∧ (∀ j, j ≠ L → s1.lpht[j]? = s.lpht[j]?)
      ∧ s1.ghr = ((s.ghr <<< 1) ||| outcome) &&& (2 ^ s.ghistoryBits - 1)
      ∧ s1.lhr[pc &&& (2 ^ s.pcIndexBits - 1)]?
          = some (((L <<< 1) ||| outcome) &&& (2 ^ s.lhistoryBits - 1))
      ∧ (∀ j, j ≠ pc &&& (2 ^ s.pcIndexBits - 1) → s1.lhr[j]? = s.lhr[j]?) := by
  obtain ⟨c, g0, L, l0, hc, hg0, hL, hl0, _, hidx, hmaskL, hmaskP⟩ := tournament_reads hwf pc
  have hg := pred_global_eq pc hidx hg0
  have hL1 := hL
  rw [← hmaskL] at hL1
  have hl := pred_local_eq hL1 hl0
  have hg3 : g0 ≤ 3 := hcnt.1 g0 (List.mem_iff_getElem?.mpr ⟨_, hg0⟩)
  have hl3 : l0 ≤ 3 := hcnt.2.1 l0 (List.mem_iff_getElem?.mpr ⟨_, hl0⟩)
  have hlsb : s.lsb = 2 ^ s.ghistoryBits - 1 := hwf.2.2.2.2.1
  refine ⟨g0, L, l0, _, hg0, hL, hl0, train_tournament_eq outcome hg hl hc hg0 hL1 hl0, ?_,
    fun j hj => List.getElem?_set_ne (Ne.symm hj), ?_,
    fun j hj => List.getElem?_set_ne (Ne.symm hj), ?_, ?_, ?_⟩
  · rw [← counter_next_eq_spec (2 ^ 8) (by norm_num) hg3 ho]
    exact List.getElem?_set_self (List.getElem?_eq_some.mp hg0).1
  · rw [← counter_next_eq_spec (2 ^ 32) (by norm_num) hl3 ho]
    exact List.getElem?_set_self (List.getElem?_eq_some.mp hl0).1
  · show (u32 (s.ghr <<< 1) ||| outcome) &&& s.lsb = _
    rw [hlsb]
    exact shift_or_mask (by have := hwf.1; omega) _ _
  · show (s.lhr.set (pc &&& u32 (s.lhrSize + 2 ^ 32 - 1))
      ((u32 (L <<< 1) ||| outcome) &&& u32 (s.lphtSize + 2 ^ 32 - 1)))[_]? = _
    rw [hmaskL, hmaskP, shift_or_mask (by have := hwf.2.1; omega)]
    exact List.getElem?_set_self (List.getElem?_eq_some.mp hL).1
  · intro j hj
    show (s.lhr.set (pc &&& u32 (s.lhrSize + 2 ^ 32 - 1)) _)[j]? = _
    rw [hmaskL]
    exact List.getElem?_set_ne (Ne.symm hj)

/-- C9 at a concrete state. -/
theorem train_tournament_pre_update_witness :
    (TournamentWF tournament_example ∧ CountersOK tournament_example)
    ∧ ∃ g0 L l0 s1,
      tournament_example.gpht[tournament_example.ghr]? = some g0
      ∧ tournament_example.lhr[1 &&& (2 ^ tournament_example.pcIndexBits - 1)]? = some L
      ∧ tournament_example.lpht[L]? = some l0
      ∧ train_tournament tournament_example 1 TAKEN = some s1
      ∧ s1.gpht[tournament_example.ghr]? = some (spec_counter_train g0 TAKEN)
      ∧ (∀ j, j ≠ tournament_example.ghr → s1.gpht[j]? = tournament_example.gpht[j]?)
      ∧ s1.lpht[L]? = some (spec_counter_train l0 TAKEN)
      ∧ (∀ j, j ≠ L → s1.lpht[j]? = tournament_example.lpht[j]?)
      ∧ s1.ghr = ((tournament_example.ghr <<< 1) ||| TAKEN)
          &&& (2 ^ tournament_example.ghistoryBits - 1)
      ∧ s1.lhr[1 &&& (2 ^ tournament_example.pcIndexBits - 1)]?
          = some (((L <<< 1) ||| TAKEN) &&& (2 ^ tournament_example.lhistoryBits - 1))
      ∧ (∀ j, j ≠ 1 &&& (2 ^ tournament_example.pcIndexBits - 1) →
          s1.lhr[j]? = tournament_example.lhr[j]?) :=
  ⟨⟨by unfold TournamentWF; decide, by unfold CountersOK; decide⟩,
   train_tournament_pre_update tournament_example 1 TAKEN (by unfold TournamentWF; decide)
     (by unfold CountersOK; decide) (Or.inr rfl)⟩

/-! ## Perceptron prediction (C10) -/

/-- C10: `EntryNumber = 248`, `N = 32`, and for every state whose perceptron arrays have
their declared dimensions and every `pc`, `pred_custom(pc)` succeeds, sets
`indexPT = pc mod 248`, leaves in `y` the output
`bias[e] + Σ_{i<32} PT[e][i] * x_i` of entry `e = pc mod 248` reduced to a 32-bit `int`
(the output itself whenever that is representable, in particular whenever the bias
and the weights of the entry are in `[-128, 127]`), and returns Taken iff `y > 0`;
apart from `indexPT`, `y` and `pred_c` no variable changes.  When the bias and the
32 weights of entry `e` are 0 it returns Not-Taken, whatever `pc` and the history. -/
theorem pred_custom_output (s : State) (pc : Nat) (hwf : PerceptronWF s) :
    EntryNumber = 248 ∧ N = 32
    ∧ ∃ r s1,
      pred_custom s pc = some (r, s1)
      ∧ s1.indexPT = pc % 248
      ∧ s1.y = i32 (spec_perceptron_output s (pc % 248))
      ∧ ((-2 ^ 31 ≤ spec_perceptron_output s (pc % 248) ∧ spec_perceptron_output s (pc % 248) < 2 ^ 31)
          → s1.y = spec_perceptron_output s (pc % 248))
      ∧ (EntryInRange s (pc % 248) → s1.y = spec_perceptron_output s (pc % 248))
      ∧ (r = TAKEN ↔ s1.y > 0) ∧ (r = NOTTAKEN ↔ ¬ s1.y > 0)
      ∧ s1 = { s with indexPT := s1.indexPT, y := s1.y, pred_c := r }
      ∧ ((s.bias.getD (pc % 248) 0 = 0 ∧ ∀ i, i < 32 → (s.PT.getD (pc % 248) []).getD i 0 = 0)
          → r = NOTTAKEN) := by
  have hE : EntryNumber = 248 := by decide
  have hN : N = 32 := rfl
  have he : pc % EntryNumber < EntryNumber := Nat.mod_lt _ (by rw [hE]; norm_num)
  obtain ⟨b, row, hb, hrow, hlen⟩ := perceptron_reads hwf he
  have hpred := pred_custom_eq hb hrow hlen
  rw [hE] at hpred
  refine ⟨hE, hN, _, _, hpred, rfl, rfl, ?_, ?_, ?_, ?_, rfl, ?_⟩
  · intro h
    exact i32_of_fits h.1 h.2
  · intro h
    have := abs_le.mp (spec_perceptron_output_bounded h)
    exact i32_of_fits (by omega) (by omega)
  · show (if i32 (spec_perceptron_output s (pc % 248)) > 0 then TAKEN else NOTTAKEN) = TAKEN ↔ _
    split_ifs with h <;> simp [h, TAKEN, NOTTAKEN]
  · show (if i32 (spec_perceptron_output s (pc % 248)) > 0 then TAKEN else NOTTAKEN) = NOTTAKEN ↔ _
    split_ifs with h <;> simp [h, TAKEN, NOTTAKEN]
  · intro h
    show (if i32 (spec_perceptron_output s (pc % 248)) > 0 then TAKEN else NOTTAKEN) = NOTTAKEN
    rw [spec_perceptron_output_zero h.1 h.2]
    rfl

set_option maxRecDepth 100000 in
/-- C10 at a concrete state: `pc = 253` selects entry 5. -/
theorem pred_custom_output_witness :
    PerceptronWF perceptron_example
    ∧ (EntryNumber = 248 ∧ N = 32
    ∧ ∃ r s1,
      pred_custom perceptron_example 253 = some (r, s1)
      ∧ s1.indexPT = 253 % 248
      ∧ s1.y = i32 (spec_perceptron_output perceptron_example (253 % 248))
      ∧ ((-2 ^ 31 ≤ spec_perceptron_output perceptron_example (253 % 248)
            ∧ spec_perceptron_output perceptron_example (253 % 248) < 2 ^ 31)
          → s1.y = spec_perceptron_output perceptron_example (253 % 248))
      ∧ (EntryInRange perceptron_example (253 % 248)
          → s1.y = spec_perceptron_output perceptron_example (253 % 248))
      ∧ (r = TAKEN ↔ s1.y > 0) ∧ (r = NOTTAKEN ↔ ¬ s1.y > 0)
      ∧ s1 = { perceptron_example with indexPT := s1.indexPT, y := s1.y, pred_c := r }
      ∧ ((perceptron_example.bias.getD (253 % 248) 0 = 0
            ∧ ∀ i, i < 32 → (perceptron_example.PT.getD (253 % 248) []).getD i 0 = 0)
          → r = NOTTAKEN)) :=
  ⟨by unfold PerceptronWF; decide,
   pred_custom_output perceptron_example 253 (by unfold PerceptronWF; decide)⟩

/-! ## Perceptron training gate (C11) -/

/-- C11: `theta` is 75.76 (`theta100 = 7576`).  For every state whose perceptron arrays
have their declared dimensions, every `pc` and every outcome in `{0, 1}`,
`train_custom(pc, outcome)` succeeds and, with `y` and `p = pred_c` the values retained
from the preceding `pred_custom(pc)`: the history register becomes
`((GHR << 1) OR outcome)` truncated to 32 bits whether or not training fires; a bias
or weight is modified only if `p != outcome` or `-75 <= y <= 75`; when `p = outcome` and
`|y| > 75` all biases and the whole perceptron table are unchanged; no other variable
changes. -/
theorem train_custom_gate (s : State) (pc outcome : Nat) (hwf : PerceptronWF s)
    (ho : outcome = NOTTAKEN ∨ outcome = TAKEN) :
    theta100 = 7576
    ∧ ∃ s1, train_custom s pc outcome = some s1
      ∧ s1.ghr_c = u32 ((s.ghr_c <<< 1) ||| outcome)
      ∧ s1 = { s with bias := s1.bias, PT := s1.PT, ghr_c := s1.ghr_c }
      ∧ ((s.pred_c = outcome ∧ (s.y < -75 ∨ 75 < s.y)) → s1.bias = s.bias ∧ s1.PT = s.PT)
      ∧ ((s1.bias ≠ s.bias ∨ s1.PT ≠ s.PT) → s.pred_c ≠ outcome ∨ (-75 ≤ s.y ∧ s.y ≤ 75))
      ∧ (∀ s0 p, pred_custom s0 pc = some (p, s) →
          s.pred_c = p ∧ s.indexPT = pc % EntryNumber ∧ s.ghr_c = s0.ghr_c) := by
  have ho32 : outcome < 2 ^ 32 := by
    rcases ho with h | h <;> rw [h] <;> decide
  have hctx : ∀ s0 p, pred_custom s0 pc = some (p, s) →
      s.pred_c = p ∧ s.indexPT = pc % EntryNumber ∧ s.ghr_c = s0.ghr_c := by
    intro s0 p h
    obtain ⟨b, row, y, _, _, _, _, hs⟩ := pred_custom_parts h
    rw [hs]
    exact ⟨rfl, rfl, rfl⟩
  refine ⟨by decide, ?_⟩
  by_cases hgate : (100 * s.y ≤ theta100 ∧ 100 * s.y ≥ (-1) * theta100) ∨ s.pred_c ≠ outcome
  · obtain ⟨b, row, hb, hrow, hlen⟩ := perceptron_reads hwf hwf.2.2.2
    obtain ⟨row1, e1, _, _⟩ := train_custom_fire pc hgate hb hrow (by omega)
    refine ⟨_, e1, (u32_or ho32).symm, rfl, ?_, ?_, hctx⟩
    · intro h
      exfalso
      rcases hgate with hg | hg
      · have := (gate_iff s.y).mp hg
        omega
      · exact hg h.1
    · intro _
      rcases hgate with hg | hg
      · exact Or.inr ((gate_iff s.y).mp hg)
      · exact Or.inl hg
  · refine ⟨_, train_custom_skip pc hgate, (u32_or ho32).symm, rfl, fun _ => ⟨rfl, rfl⟩, ?_,
      hctx⟩
    intro h
    rcases h with h | h <;> exact absurd rfl h

set_option maxRecDepth 100000 in
/-- C11 at a concrete state: `perceptron_example` with outcome Taken. -/
theorem train_custom_gate_witness :
    PerceptronWF perceptron_example
    ∧ (theta100 = 7576
    ∧ ∃ s1, train_custom perceptron_example 253 TAKEN = some s1
      ∧ s1.ghr_c = u32 ((perceptron_example.ghr_c <<< 1) ||| TAKEN)
      ∧ s1 = { perceptron_example with bias := s1.bias, PT := s1.PT, ghr_c := s1.ghr_c }
      ∧ ((perceptron_example.pred_c = TAKEN
            ∧ (perceptron_example.y < -75 ∨ 75 < perceptron_example.y))
          → s1.bias = perceptron_example.bias ∧ s1.PT = perceptron_example.PT)
      ∧ ((s1.bias ≠ perceptron_example.bias ∨ s1.PT ≠ perceptron_example.PT)
          → perceptron_example.pred_c ≠ TAKEN
            ∨ (-75 ≤ perceptron_example.y ∧ perceptron_example.y ≤ 75))
      ∧ (∀ s0 p, pred_custom s0 253 = some (p, perceptron_example) →
          perceptron_example.pred_c = p ∧ perceptron_example.indexPT = 253 % EntryNumber
          ∧ perceptron_example.ghr_c = s0.ghr_c)) :=
  ⟨by unfold PerceptronWF; decide,
   train_custom_gate perceptron_example 253 TAKEN (by unfold PerceptronWF; decide)
     (Or.inr rfl)⟩

/-! ## Perceptron update at the bounds (C12) -/

/-- C13: after `init_custom` every bias and every weight of every entry is in
`[MinWeight, MaxWeight] = [-128, 127]`, and after every sequence of `pred_custom` /
`train_custom` calls (any `pc`, any outcome) the calls have all succeeded and the
range still holds; in inductive form, `train_custom` succeeds on every state with
arrays of the declared dimensions and weights in range, and leaves the weights in
range. -/
theorem weights_in_range (s : State) (h : s.indexPT < EntryNumber) :
    (MinWeight = -128 ∧ MaxWeight = 127)
    ∧ WeightsInRange (init_custom s)
    ∧ (∀ calls : List Call,
        ∃ s1, run_custom (init_custom s) calls = some s1 ∧ WeightsInRange s1)
    ∧ (∀ (s2 : State) (pc outcome : Nat), PerceptronWF s2 → WeightsInRange s2 →
        ∃ s3, train_custom s2 pc outcome = some s3 ∧ PerceptronWF s3 ∧ WeightsInRange s3) := by
  refine ⟨⟨rfl, rfl⟩, init_custom_range s, ?_, ?_⟩
  · intro calls
    obtain ⟨s1, e, _, r⟩ := run_custom_range calls (init_custom s)
      (init_custom_perceptronWF h) (init_custom_range s)
    exact ⟨s1, e, r⟩
  · intro s2 pc outcome hwf hr
    exact train_custom_range pc outcome hwf hr

/-- C13 at the start-up state of the Custom predictor. -/
theorem weights_in_range_witness :
    (boot CUSTOM 0 0 0).indexPT < EntryNumber
    ∧ ((MinWeight = -128 ∧ MaxWeight = 127)
    ∧ WeightsInRange (init_custom (boot CUSTOM 0 0 0))
    ∧ (∀ calls : List Call,
        ∃ s1, run_custom (init_custom (boot CUSTOM 0 0 0)) calls = some s1
          ∧ WeightsInRange s1)
    ∧ (∀ (s2 : State) (pc outcome : Nat), PerceptronWF s2 → WeightsInRange s2 →
        ∃ s3, train_custom s2 pc outcome = some s3 ∧ PerceptronWF s3
          ∧ WeightsInRange s3)) :=
  ⟨by decide, weights_in_range (boot CUSTOM 0 0 0) (by decide)⟩

/-! ## Perceptron after long training (C14) -/

/-- C15: for every predictor type and bit widths in `0..31`, `init_predictor` succeeds,
and after every sequence of calls (any `pc`, any outcome) the calls have all succeeded,
the widths are the configured ones, the global history register is below
`2^ghistoryBits` and every local history register is below `2^lhistoryBits`.  In
the inductive form: `train_gshare` and `train_tournament` succeed on every well-formed
state (which has its registers inside their widths) and leave a well-formed state
with the same widths. -/
theorem history_registers_masked (t : Int) (gb lb pb : Nat) (hg : gb < 32) (hl : lb < 32)
    (hp : pb < 32) :
    (∃ s0, init_predictor (boot t gb lb pb) = some s0
      ∧ ∀ calls : List Call, ∃ s1, run s0 calls = some s1
          ∧ s1.ghistoryBits = gb ∧ s1.lhistoryBits = lb
          ∧ s1.ghr < 2 ^ gb ∧ ∀ h ∈ s1.lhr, h < 2 ^ lb)
    ∧ (∀ (s : State) (pc outcome : Nat), TournamentWF s →
        ∃ s1, train_gshare s pc outcome = some s1
          ∧ s1.ghistoryBits = s.ghistoryBits ∧ s1.lhistoryBits = s.lhistoryBits
          ∧ s1.ghr < 2 ^ s.ghistoryBits ∧ (∀ h ∈ s1.lhr, h < 2 ^ s.lhistoryBits)
          ∧ TournamentWF s1)
    ∧ (∀ (s : State) (pc outcome : Nat), TournamentWF s →
        ∃ s1, train_tournament s pc outcome = some s1
          ∧ s1.ghistoryBits = s.ghistoryBits ∧ s1.lhistoryBits = s.lhistoryBits
          ∧ s1.ghr < 2 ^ s.ghistoryBits ∧ (∀ h ∈ s1.lhr, h < 2 ^ s.lhistoryBits)
          ∧ TournamentWF s1) := by
  refine ⟨?_, ?_, ?_⟩
  · obtain ⟨s0, e0, i0, w0, c0⟩ := init_predictor_width t hg hl hp
    refine ⟨s0, e0, ?_⟩
    intro calls
    obtain ⟨s1, e1, _, w1, c1⟩ := run_width calls s0 i0 w0
    have hc := sameConfig_trans c0 c1
    have h1 : s1.ghistoryBits = gb := hc.1
    have h2 : s1.lhistoryBits = lb := hc.2.1
    refine ⟨s1, e1, h1, h2, ?_, ?_⟩
    · rw [← h1]; exact w1.1
    · rw [← h2]; exact w1.2
  · intro s pc outcome hwf
    obtain ⟨s1, e1, w1⟩ := train_gshare_wf pc outcome hwf
    obtain ⟨x1, x2, _, _⟩ := train_gshare_config e1
    refine ⟨s1, e1, x1, x2, ?_, ?_, w1⟩
    · rw [← x1]; exact w1.2.2.2.2.2.2.2.2.2.2.2.1
    · rw [← x2]; exact w1.2.2.2.2.2.2.2.2.2.2.2.2
  · intro s pc outcome hwf
    obtain ⟨s1, e1, w1⟩ := train_tournament_wf pc outcome hwf
    obtain ⟨x1, x2, _, _⟩ := train_tournament_config e1
    refine ⟨s1, e1, x1, x2, ?_, ?_, w1⟩
    · rw [← x1]; exact w1.2.2.2.2.2.2.2.2.2.2.2.1
    · rw [← x2]; exact w1.2.2.2.2.2.2.2.2.2.2.2.2

/-- C15 at a concrete configuration: Tournament with `ghistoryBits = 3`,
`lhistoryBits = 2`, `pcIndexBits = 1`. -/
theorem history_registers_masked_witness :
    (3 < 32 ∧ 2 < 32 ∧ 1 < 32)
    ∧ ((∃ s0, init_predictor (boot TOURNAMENT 3 2 1) = some s0
      ∧ ∀ calls : List Call, ∃ s1, run s0 calls = some s1
          ∧ s1.ghistoryBits = 3 ∧ s1.lhistoryBits = 2
          ∧ s1.ghr < 2 ^ 3 ∧ ∀ h ∈ s1.lhr, h < 2 ^ 2)
    ∧ (∀ (s : State) (pc outcome : Nat), TournamentWF s →
        ∃ s1, train_gshare s pc outcome = some s1
          ∧ s1.ghistoryBits = s.ghistoryBits ∧ s1.lhistoryBits = s.lhistoryBits
          ∧ s1.ghr < 2 ^ s.ghistoryBits ∧ (∀ h ∈ s1.lhr, h < 2 ^ s.lhistoryBits)
          ∧ TournamentWF s1)
    ∧ (∀ (s : State) (pc outcome : Nat), TournamentWF s →
        ∃ s1, train_tournament s pc outcome = some s1
          ∧ s1.ghistoryBits = s.ghistoryBits ∧ s1.lhistoryBits = s.lhistoryBits
          ∧ s1.ghr < 2 ^ s.ghistoryBits ∧ (∀ h ∈ s1.lhr, h < 2 ^ s.lhistoryBits)
          ∧ TournamentWF s1)) :=
  ⟨by decide, history_registers_masked TOURNAMENT 3 2 1 (by decide) (by decide) (by decide)⟩

/-! ## Gshare aliasing (C16) -/

/-- C16: for a fixed history width `W = ghistoryBits`, mask `2^W - 1` and global pattern
table with counters in `[0, 3]`, whenever `(GHR1 XOR pc1) AND (2^W - 1)` equals
`(GHR2 XOR pc2) AND (2^W - 1)`, the calls `pred_gshare(pc1)` with history `GHR1` and
`pred_gshare(pc2)` with history `GHR2` succeed and return the same prediction, which
is Taken iff the counter `c` at the shared index is at least 2. -/
theorem gshare_aliasing (s : State) (ghr1 pc1 ghr2 pc2 : Nat) (hwf : GshareWF s)
    (hcnt : ∀ c ∈ s.gpht, c ≤ 3)
    (halias : (ghr1 ^^^ pc1) &&& (2 ^ s.ghistoryBits - 1)
      = (ghr2 ^^^ pc2) &&& (2 ^ s.ghistoryBits - 1)) :
    ∃ c, s.gpht[(ghr1 ^^^ pc1) &&& (2 ^ s.ghistoryBits - 1)]? = some c
      ∧ pred_gshare { s with ghr := ghr1 } pc1 = some (if c ≥ 2 then TAKEN else NOTTAKEN)
      ∧ pred_gshare { s with ghr := ghr2 } pc2 = some (if c ≥ 2 then TAKEN else NOTTAKEN)
      ∧ (pred_gshare { s with ghr := ghr1 } pc1 = some TAKEN ↔ c ≥ 2) := by
  obtain ⟨hW, hmask, hlen⟩ := hwf
  have hlt : (ghr1 ^^^ pc1) &&& (2 ^ s.ghistoryBits - 1) < s.gpht.length := by
    rw [hlen]; exact and_pow_pred_lt _ _
  have hget := List.getElem?_eq_getElem hlt
  have hc : s.gpht[(ghr1 ^^^ pc1) &&& (2 ^ s.ghistoryBits - 1)] ≤ 3 :=
    hcnt _ (List.getElem_mem _)
  have hp1 : pred_gshare { s with ghr := ghr1 } pc1
      = some (if s.gpht[(ghr1 ^^^ pc1) &&& (2 ^ s.ghistoryBits - 1)] ≥ 2 then TAKEN
        else NOTTAKEN) := by
    unfold pred_gshare
    simp only [hmask, hget, Option.bind_eq_bind, Option.some_bind, Option.pure_def]
    rw [spec_counter_predict_eq hc]; rfl
  have hp2 : pred_gshare { s with ghr := ghr2 } pc2
      = some (if s.gpht[(ghr1 ^^^ pc1) &&& (2 ^ s.ghistoryBits - 1)] ≥ 2 then TAKEN
        else NOTTAKEN) := by
    unfold pred_gshare
    simp only [hmask, ← halias, hget, Option.bind_eq_bind, Option.some_bind, Option.pure_def]
    rw [spec_counter_predict_eq hc]; rfl
  refine ⟨_, hget, hp1, hp2, ?_⟩
  rw [hp1]
  constructor
  · intro h
    by_contra hn
    rw [if_neg hn] at h
    exact absurd (Option.some.inj h) (by decide)
  · intro h
    rw [if_pos h]

/-- C16 at a concrete table: histories 2 and 1 with `pc` 3 and 0 both address index 1. -/
theorem gshare_aliasing_witness :
    (GshareWF gshare_example ∧ (∀ c ∈ gshare_example.gpht, c ≤ 3)
      ∧ (2 ^^^ 3) &&& (2 ^ gshare_example.ghistoryBits - 1)
        = (1 ^^^ 0) &&& (2 ^ gshare_example.ghistoryBits - 1))
    ∧ ∃ c, gshare_example.gpht[(2 ^^^ 3) &&& (2 ^ gshare_example.ghistoryBits - 1)]? = some c
      ∧ pred_gshare { gshare_example with ghr := 2 } 3
          = some (if c ≥ 2 then TAKEN else NOTTAKEN)
      ∧ pred_gshare { gshare_example with ghr := 1 } 0
          = some (if c ≥ 2 then TAKEN else NOTTAKEN)
      ∧ (pred_gshare { gshare_example with ghr := 2 } 3 = some TAKEN ↔ c ≥ 2) :=
  ⟨⟨by unfold GshareWF; decide, by decide, by decide⟩,
   gshare_aliasing gshare_example 2 3 1 0 (by unfold GshareWF; decide) (by decide)
     (by decide)⟩

/-! ## Gshare learns a constant branch (C17) -/

/-- C17: for every Gshare state with `W = ghistoryBits` in `0..31`, mask `2^W - 1`, a
table of `2^W` counters in `[0, 3]` and `GHR < 2^W`, every `pc` and every outcome `o` in
`{0, 1}`, the `W + 2` consecutive calls `train_gshare(pc, o)` succeed and the call
`pred_gshare(pc)` after them returns `o`. -/
theorem gshare_learns_constant (s : State) (pc o : Nat) (hwf : GshareWF s)
    (hghr : s.ghr < 2 ^ s.ghistoryBits) (hcnt : ∀ c ∈ s.gpht, c ≤ 3)
    (ho : o = NOTTAKEN ∨ o = TAKEN) :
    ∃ s1, train_gshare_times s pc o (s.ghistoryBits + 2) = some s1
      ∧ pred_gshare s1 pc = some o := by
  obtain ⟨s1, e1, w1, c1, b1, g1, t1⟩ := train_gshare_times_bits pc ho s.ghistoryBits s 0
    hwf hcnt (fun j hj => absurd hj (Nat.not_lt_zero j)) hghr
  rw [← b1] at g1 t1
  obtain ⟨s2, e2, p2⟩ := train_gshare_twice_fixed pc w1 c1 ho
    (fun j hj hj2 => t1 j (by omega) hj2) g1
  refine ⟨s2, ?_, p2⟩
  rw [train_gshare_times_add, e1, Option.some_bind]
  exact e2

/-- C17 at a concrete state: `ghistoryBits = 2`, four calls with outcome Not-Taken. -/
theorem gshare_learns_constant_witness :
    (GshareWF gshare_example ∧ gshare_example.ghr < 2 ^ gshare_example.ghistoryBits
      ∧ (∀ c ∈ gshare_example.gpht, c ≤ 3))
    ∧ ∃ s1, train_gshare_times gshare_example 3 NOTTAKEN (gshare_example.ghistoryBits + 2)
        = some s1
      ∧ pred_gshare s1 3 = some NOTTAKEN :=
  ⟨⟨by unfold GshareWF; decide, by decide, by decide⟩,
   gshare_learns_constant gshare_example 3 NOTTAKEN (by unfold GshareWF; decide) (by decide)
     (by decide) (Or.inl rfl)⟩

/-! ## Fall-through in `train_predictor` (C18) -/

/-- C18: when `bpType` is Gshare, on a well-formed state with counters in `[0, 3]`, one
call `train_predictor(pc, o)` with `o` in `{0, 1}` is `train_gshare`, then
`train_tournament`, then `train_custom`, each on the state the previous one left.
The global history register ends as `((GHR << 2) OR 3*o) AND (2^ghistoryBits - 1)`, and
the global pattern table receives two saturating updates: `train_gshare` updates the
counter at index `(GHR XOR pc) AND mask`, and `train_tournament` then updates the
counter at index `((GHR << 1) OR o) AND mask` of the table so obtained. -/
theorem train_predictor_fall_through (s : State) (pc o : Nat) (ht : s.bpType = GSHARE)
    (hwf : TournamentWF s) (hcnt : CountersOK s) (hP : PerceptronWF s)
    (ho : o = NOTTAKEN ∨ o = TAKEN) :
    ∃ s1 s2 s3 c1 c2,
      train_gshare s pc o = some s1 ∧ train_tournament s1 pc o = some s2
      ∧ train_custom s2 pc o = some s3
      ∧ train_predictor s pc o = some s3
      ∧ s3.ghr = ((s.ghr <<< 2) ||| (3 * o)) &&& (2 ^ s.ghistoryBits - 1)
      ∧ s.gpht[(s.ghr ^^^ pc) &&& (2 ^ s.ghistoryBits - 1)]? = some c1
      ∧ s1.gpht = s.gpht.set ((s.ghr ^^^ pc) &&& (2 ^ s.ghistoryBits - 1))
          (spec_counter_train c1 o)
      ∧ s1.gpht[((s.ghr <<< 1) ||| o) &&& (2 ^ s.ghistoryBits - 1)]? = some c2
      ∧ s3.gpht = s1.gpht.set (((s.ghr <<< 1) ||| o) &&& (2 ^ s.ghistoryBits - 1))
          (spec_counter_train c2 o) := by
  have hW : s.ghistoryBits < 32 := hwf.1
  have hlsb : s.lsb = 2 ^ s.ghistoryBits - 1 := hwf.2.2.2.2.1
  have hlen : s.gpht.length = 2 ^ s.ghistoryBits := hwf.2.2.2.2.2.2.2.1
  have hlt : (s.ghr ^^^ pc) &&& s.lsb < s.gpht.length := by
    rw [hlsb, hlen]; exact and_pow_pred_lt _ _
  have hget := List.getElem?_eq_getElem hlt
  have hc1 : s.gpht[(s.ghr ^^^ pc) &&& s.lsb] ≤ 3 := hcnt.1 _ (List.getElem_mem _)
  have e1 := train_gshare_eq o hget
  obtain ⟨s1, e1', w1, k1, p1, _⟩ := train_gshare_inv pc o hwf hcnt
  have hs1 : s1 = _ := Option.some.inj (e1'.symm.trans e1)
  have hghr1 : s1.ghr = ((s.ghr <<< 1) ||| o) &&& (2 ^ s.ghistoryBits - 1) := by
    rw [hs1]
    show (u32 (s.ghr <<< 1) ||| o) &&& s.lsb = _
    rw [hlsb]; exact shift_or_mask (by omega) _ _
  have hbits1 : s1.ghistoryBits = s.ghistoryBits := by rw [hs1]
  have hlsb1 : s1.lsb = 2 ^ s.ghistoryBits - 1 := by rw [hs1]; exact hlsb
  obtain ⟨c, g0, L, l0, hc, hg0, hL, hl0, _, hidx, hmaskL, _⟩ := tournament_reads w1 pc
  have hg := pred_global_eq pc hidx hg0
  rw [← hmaskL] at hL
  have hl := pred_local_eq hL hl0
  have hg3 : g0 ≤ 3 := k1.1 g0 (List.mem_iff_getElem?.mpr ⟨_, hg0⟩)
  have e2 := train_tournament_eq o hg hl hc hg0 hL hl0
  obtain ⟨s2, e2', w2, k2, p2, _⟩ := train_tournament_inv pc o w1 k1
  have hs2 : s2 = _ := Option.some.inj (e2'.symm.trans e2)
  obtain ⟨bias1, PT1, e3, _⟩ := train_custom_some pc o (p2 (p1 hP))
  refine ⟨s1, s2, _, s.gpht[(s.ghr ^^^ pc) &&& s.lsb], g0, e1', e2', e3, ?_, ?_, ?_, ?_, ?_,
    ?_⟩
  · unfold train_predictor
    rw [if_pos ht]
    simp only [e1', e2', e3, Option.bind_eq_bind, Option.some_bind]
  · show s2.ghr = _
    rw [hs2]
    show (u32 (s1.ghr <<< 1) ||| o) &&& s1.lsb = _
    rw [hlsb1, hs1]
    show (u32 (((u32 (s.ghr <<< 1) ||| o) &&& s.lsb) <<< 1) ||| o) &&& _ = _
    rw [hlsb]
    exact ghr_twice hW ho s.ghr
  · rw [← hlsb]; exact hget
  · rw [hs1, ← hlsb, ← counter_next_eq_spec (2 ^ 8) (by norm_num) hc1 ho]
  · rw [← hghr1]; exact hg0
  · show s2.gpht = _
    rw [hs2, ← hghr1, ← counter_next_eq_spec (2 ^ 8) (by norm_num) hg3 ho]

set_option maxRecDepth 100000 in
/-- C18 at a concrete state: Gshare with `ghistoryBits = 2`,
`lhistoryBits = pcIndexBits = 0`, history register 2, counters `[0, 1, 2, 3]`. -/
theorem train_predictor_fall_through_witness :
    (gshare_fall_example.bpType = GSHARE ∧ TournamentWF gshare_fall_example
      ∧ CountersOK gshare_fall_example ∧ PerceptronWF gshare_fall_example)
    ∧ ∃ s1 s2 s3 c1 c2,
      train_gshare gshare_fall_example 3 TAKEN = some s1
      ∧ train_tournament s1 3 TAKEN = some s2
      ∧ train_custom s2 3 TAKEN = some s3
      ∧ train_predictor gshare_fall_example 3 TAKEN = some s3
      ∧ s3.ghr = ((gshare_fall_example.ghr <<< 2) ||| (3 * TAKEN))
          &&& (2 ^ gshare_fall_example.ghistoryBits - 1)
      ∧ gshare_fall_example.gpht[(gshare_fall_example.ghr ^^^ 3)
          &&& (2 ^ gshare_fall_example.ghistoryBits - 1)]? = some c1
      ∧ s1.gpht = gshare_fall_example.gpht.set ((gshare_fall_example.ghr ^^^ 3)
          &&& (2 ^ gshare_fall_example.ghistoryBits - 1)) (spec_counter_train c1 TAKEN)
      ∧ s1.gpht[((gshare_fall_example.ghr <<< 1) ||| TAKEN)
          &&& (2 ^ gshare_fall_example.ghistoryBits - 1)]? = some c2
      ∧ s3.gpht = s1.gpht.set (((gshare_fall_example.ghr <<< 1) ||| TAKEN)
          &&& (2 ^ gshare_fall_example.ghistoryBits - 1)) (spec_counter_train c2 TAKEN) :=
  ⟨⟨rfl, by unfold TournamentWF; decide, by unfold CountersOK; decide,
     by unfold PerceptronWF; decide⟩,
   train_predictor_fall_through gshare_fall_example 3 TAKEN rfl
     (by unfold TournamentWF; decide) (by unfold CountersOK; decide)
     (by unfold PerceptronWF; decide) (Or.inr rfl)⟩

/-! ## Table accesses are in bounds (C19) -/

/-- C19: for every predictor type (in particular Gshare, Tournament and Custom) and bit
widths in `0..31`, `init_predictor` succeeds, and in every state reached from it by
`make_prediction` / `train_predictor` calls (any `pc`, any outcome) every further call
succeeds: in the embedding an access outside a table makes the call fail, so no access
made by a call, or by the functions it runs, leaves its table.  In such a state
`indexPT` and `pc mod EntryNumber` are below 248, the size of `bias` and `PT` (whose rows
have 32 weights); and for the Gshare and Tournament types `gpht` and `cpht` have
`2^ghistoryBits` cells, `lhr` has `2^pcIndexBits` and `lpht` has `2^lhistoryBits`, the
indices `(GHR XOR pc) AND mask` and `GHR` are below `2^ghistoryBits`, the index
`pc AND (lhrSize - 1)` is below `2^pcIndexBits`, and every stored local history is below
`2^lhistoryBits`. -/
theorem table_accesses_in_bounds (t : Int) (gb lb pb : Nat) (hg : gb < 32) (hl : lb < 32)
    (hp : pb < 32) :
    ∃ s0, init_predictor (boot t gb lb pb) = some s0
      ∧ ∀ calls : List Call, ∃ s1, run s0 calls = some s1
        ∧ (∀ pc, ∃ r s2, make_prediction s1 pc = some (r, s2))
        ∧ (∀ pc outcome, ∃ s2, train_predictor s1 pc outcome = some s2)
        ∧ (s1.indexPT < 248 ∧ (∀ pc : Nat, pc % EntryNumber < 248)
            ∧ s1.bias.length = 248 ∧ s1.PT.length = 248 ∧ ∀ row ∈ s1.PT, row.length = 32)
        ∧ ((t = GSHARE ∨ t = TOURNAMENT) →
            s1.gpht.length = 2 ^ gb ∧ s1.cpht.length = 2 ^ gb
            ∧ s1.lhr.length = 2 ^ pb ∧ s1.lpht.length = 2 ^ lb
            ∧ s1.ghr < 2 ^ gb ∧ (∀ pc, (s1.ghr ^^^ pc) &&& s1.lsb < 2 ^ gb)
            ∧ (∀ pc, pc &&& u32 (s1.lhrSize + 2 ^ 32 - 1) < 2 ^ pb)
            ∧ ∀ h ∈ s1.lhr, h < 2 ^ lb) := by
  have hE : EntryNumber = 248 := by decide
  obtain ⟨s0, e0, i0, w0, c0⟩ := init_predictor_width t hg hl hp
  refine ⟨s0, e0, ?_⟩
  intro calls
  obtain ⟨s1, e1, i1, _, c1⟩ := run_width calls s0 i0 w0
  obtain ⟨hgb, hlb, hpb, hty, _⟩ := sameConfig_trans c0 c1
  have hgb1 : s1.ghistoryBits = gb := hgb
  have hlb1 : s1.lhistoryBits = lb := hlb
  have hpb1 : s1.pcIndexBits = pb := hpb
  have hty1 : s1.bpType = t := hty
  refine ⟨s1, e1, ?_, ?_, ?_, ?_⟩
  · intro pc
    obtain ⟨r, s2, e2, _⟩ := make_prediction_inv pc i1
    exact ⟨r, s2, e2⟩
  · intro pc outcome
    obtain ⟨s2, e2, _⟩ := train_predictor_inv pc outcome i1
    exact ⟨s2, e2⟩
  · obtain ⟨p1, p2, p3, p4⟩ := i1.1
    rw [hE] at p1 p2 p4
    exact ⟨p4, fun pc => by rw [hE]; exact Nat.mod_lt _ (by norm_num), p1, p2, p3⟩
  · intro ht
    have hwf := i1.2.2 (by rw [hty1]; exact ht)
    obtain ⟨_, _, _, _, a5, a6, _, a8, a9, a10, a11, a12, a13⟩ := hwf
    rw [hgb1] at a5 a8 a9 a12
    rw [hlb1] at a11 a13
    rw [hpb1] at a6 a10
    refine ⟨a8, a9, a10, a11, a12, ?_, ?_, a13⟩
    · intro pc
      rw [a5]; exact and_pow_pred_lt _ _
    · intro pc
      rw [a6, u32_pow_pred hp]; exact and_pow_pred_lt _ _

/-- C19 at a concrete configuration: Tournament with `ghistoryBits = 3`,
`lhistoryBits = 2`, `pcIndexBits = 1`. -/
theorem table_accesses_in_bounds_witness :
    (3 < 32 ∧ 2 < 32 ∧ 1 < 32)
    ∧ ∃ s0, init_predictor (boot TOURNAMENT 3 2 1) = some s0
      ∧ ∀ calls : List Call, ∃ s1, run s0 calls = some s1
        ∧ (∀ pc, ∃ r s2, make_prediction s1 pc = some (r, s2))
        ∧ (∀ pc outcome, ∃ s2, train_predictor s1 pc outcome = some s2)
        ∧ (s1.indexPT < 248 ∧ (∀ pc : Nat, pc % EntryNumber < 248)
            ∧ s1.bias.length = 248 ∧ s1.PT.length = 248 ∧ ∀ row ∈ s1.PT, row.length = 32)
        ∧ ((TOURNAMENT = GSHARE ∨ TOURNAMENT = TOURNAMENT) →
            s1.gpht.length = 2 ^ 3 ∧ s1.cpht.length = 2 ^ 3
            ∧ s1.lhr.length = 2 ^ 1 ∧ s1.lpht.length = 2 ^ 2
            ∧ s1.ghr < 2 ^ 3 ∧ (∀ pc, (s1.ghr ^^^ pc) &&& s1.lsb < 2 ^ 3)
            ∧ (∀ pc, pc &&& u32 (s1.lhrSize + 2 ^ 32 - 1) < 2 ^ 1)
            ∧ ∀ h ∈ s1.lhr, h < 2 ^ 2) :=
  ⟨by decide, table_accesses_in_bounds TOURNAMENT 3 2 1 (by decide) (by decide) (by decide)⟩

/-! ## Training moves the output by 33 (C20) -/

/-- C20: let `pred_custom(pc)` return `p` and leave the state `s` (arrays of the declared
dimensions), let the bias and the 32 weights of entry `e = pc mod EntryNumber` lie
strictly between `MinWeight` and `MaxWeight`, and let training fire for the outcome
`o` in `{0, 1}` (`p ≠ o` or `-75 <= y <= 75`).  Then the retained `y` is the output of the
entry, `train_custom(pc, o)` succeeds, and the output of the updated entry on the
pre-update history register is `y + 33` when `o` is Taken and `y - 33` when `o` is
Not-Taken. -/
theorem train_custom_moves_output (s0 s : State) (pc o p : Nat) (hwf : PerceptronWF s0)
    (hpred : pred_custom s0 pc = some (p, s)) (ho : o = NOTTAKEN ∨ o = TAKEN)
    (hgate : p ≠ o ∨ (-75 ≤ s.y ∧ s.y ≤ 75))
    (hin : EntryStrictlyInside s0 (pc % EntryNumber)) :
    ∃ s1, train_custom s pc o = some s1
      ∧ s.y = spec_perceptron_output s0 (pc % EntryNumber)
      ∧ spec_perceptron_output { s1 with ghr_c := s0.ghr_c } (pc % EntryNumber)
          = s.y + (if o = TAKEN then 33 else -33) := by
  have he : pc % EntryNumber < EntryNumber := Nat.mod_lt _ (by decide)
  obtain ⟨b, row, hb, hrow, hlen⟩ := perceptron_reads hwf he
  have hpe := pred_custom_eq hb hrow hlen
  rw [hpred] at hpe
  have hps := (Prod.mk.inj (Option.some.inj hpe)).2
  have hpp := (Prod.mk.inj (Option.some.inj hpe)).1
  have hfit := abs_le.mp (spec_perceptron_output_bounded (entry_in_range_of_strict hin))
  have hy : s.y = spec_perceptron_output s0 (pc % EntryNumber) := by
    rw [hps]
    exact i32_of_fits (by omega) (by omega)
  have hidx : s.indexPT = pc % EntryNumber := by rw [hps]
  have hbias : s.bias = s0.bias := by rw [hps]
  have hPT : s.PT = s0.PT := by rw [hps]
  have hghr : s.ghr_c = s0.ghr_c := by rw [hps]
  have hpc : s.pred_c = p := by rw [hps]; exact hpp.symm
  have hg : (100 * s.y ≤ theta100 ∧ 100 * s.y ≥ (-1) * theta100) ∨ s.pred_c ≠ o := by
    rcases hgate with h | h
    · exact Or.inr (by rw [hpc]; exact h)
    · exact Or.inl ((gate_iff s.y).mpr h)
  have hb' : s.bias[s.indexPT]? = some b := by rw [hidx, hbias]; exact hb
  have hrow' : s.PT[s.indexPT]? = some row := by rw [hidx, hPT]; exact hrow
  obtain ⟨row1, e1, l1, g1⟩ := train_custom_fire pc hg hb' hrow' (by omega)
  have hbin : MinWeight < b ∧ b < MaxWeight := by
    have := hin.1
    rw [List.getD_eq_getElem?_getD, hb] at this
    exact this
  have hrin : ∀ w ∈ row, MinWeight < w ∧ w < MaxWeight := by
    have := hin.2
    rw [List.getD_eq_getElem?_getD, hrow] at this
    exact this
  have hib : pc % EntryNumber < s0.bias.length := (List.getElem?_eq_some.mp hb).1
  have hip : pc % EntryNumber < s0.PT.length := (List.getElem?_eq_some.mp hrow).1
  refine ⟨_, e1, hy, ?_⟩
  have hout := output_after_training ho
    (s0.bias.set (pc % EntryNumber) (bias_next o b))
    (s0.PT.set (pc % EntryNumber) row1) hb hrow
    (by rw [List.getElem?_set_self hib, bias_next_eq ho, sticky_step_inside _ hbin])
    (List.getElem?_set_self hip)
    (by
      intro i hi
      have hir : i < row.length := by rw [hlen]; exact hi
      refine ⟨row[i], List.getElem?_eq_getElem hir, ?_⟩
      rw [g1 i, if_pos hi, List.getElem?_eq_getElem hir, hghr, Option.map_some',
        weight_next_eq ho, sticky_step_inside _ (hrin _ (List.getElem_mem _))])
  have key : spec_perceptron_output
      { ({ s with
          bias := s.bias.set s.indexPT (bias_next o b)
          PT := s.PT.set s.indexPT row1
          ghr_c := u32 (s.ghr_c <<< 1) ||| o } : State) with ghr_c := s0.ghr_c }
      (pc % EntryNumber)
      = spec_perceptron_output
        { s0 with
          bias := s.bias.set s.indexPT (bias_next o b)
          PT := s.PT.set s.indexPT row1 } (pc % EntryNumber) := rfl
  rw [key, hidx, hbias, hPT, hout, hy]
  unfold spec_bias_step
  split_ifs <;> ring

set_option maxRecDepth 100000 in
/-- C20 at a concrete state: `perceptron_example`, `pc = 253` (entry 5, output 6),
outcome Taken. -/
theorem train_custom_moves_output_witness :
    (PerceptronWF perceptron_example
      ∧ pred_custom perceptron_example 253
          = some (1, { perceptron_example with indexPT := 5, y := 6, pred_c := 1 })
      ∧ ((1 : Nat) ≠ TAKEN
          ∨ (-75 ≤ ({ perceptron_example with indexPT := 5, y := 6, pred_c := 1 } : State).y
            ∧ ({ perceptron_example with indexPT := 5, y := 6, pred_c := 1 } : State).y ≤ 75))
      ∧ EntryStrictlyInside perceptron_example (253 % EntryNumber))
    ∧ ∃ s1, train_custom { perceptron_example with indexPT := 5, y := 6, pred_c := 1 } 253
          TAKEN = some s1
      ∧ ({ perceptron_example with indexPT := 5, y := 6, pred_c := 1 } : State).y
          = spec_perceptron_output perceptron_example (253 % EntryNumber)
      ∧ spec_perceptron_output { s1 with ghr_c := perceptron_example.ghr_c }
          (253 % EntryNumber)
          = ({ perceptron_example with indexPT := 5, y := 6, pred_c := 1 } : State).y
            + (if TAKEN = TAKEN then 33 else -33) :=
  ⟨⟨by unfold PerceptronWF; decide, by decide, by decide,
     by unfold EntryStrictlyInside; decide⟩,
   train_custom_moves_output perceptron_example
     { perceptron_example with indexPT := 5, y := 6, pred_c := 1 } 253 TAKEN 1
     (by unfold PerceptronWF; decide) (by decide) (Or.inr rfl) (by decide)
     (by unfold EntryStrictlyInside; decide)⟩

end BranchPredictor
